import Mathlib

/-!
# Coverage summaries of llvm-cov (`CoverageSummaryInfo.h`, `CoverageSummaryInfo.cpp`)

A shallow embedding of the coverage accumulators, of the branch and MC/DC
summation and of the function / file summary builders.

Conventions of the embedding:

* `size_t` and `uint64_t` counters are natural numbers. Every counter counts
  records held in memory (regions, lines, branch arms, conditions, decisions,
  functions), so the embedding does not wrap them at `2^64`.
* A member function that updates `*this` becomes a function from the old
  object to the new one; an output reference (`bool &SomethingWrong`,
  `size_t &NumBranches`) becomes part of the returned value.
* An `assert` that fails becomes `Except.error` carrying the assertion text.
* `getPercentCovered` is embedded twice. `getPercentCovered` takes the `double`
  arithmetic over the exact rationals: a counter is converted without
  rounding, and the quotient and the product are exact.
  `getPercentCoveredDouble` takes it in IEEE 754 binary64: the two conversions,
  the quotient and the product are each rounded to the nearest binary64
  number, a tie going to the even significand. The two agree whenever no
  rounding occurs, in particular on the result `0.0` for a total of 0.
* `printf` diagnostics are not modelled.
-/

namespace llvm

/-! ## Metric accumulators (`CoverageSummaryInfo.h`) -/

/-- Region coverage of a function or file: `Covered` out of `NumRegions`. -/
@[ext]
structure RegionCoverageInfo where
  Covered : Nat
  NumRegions : Nat
deriving DecidableEq, Repr

namespace RegionCoverageInfo

/-- The default constructor `RegionCoverageInfo()`. -/
def empty : RegionCoverageInfo := ⟨0, 0⟩

/-- The constructor `RegionCoverageInfo(Covered, NumRegions)` with its assertion. -/
def create (Covered NumRegions : Nat) : Except String RegionCoverageInfo :=
  if Covered ≤ NumRegions then .ok ⟨Covered, NumRegions⟩
  else .error "Covered regions over-counted"

/-- The member `operator+=`. -/
def add (self RHS : RegionCoverageInfo) : RegionCoverageInfo :=
  { Covered := self.Covered + RHS.Covered
    NumRegions := self.NumRegions + RHS.NumRegions }

/-- The member `merge`. -/
def merge (self RHS : RegionCoverageInfo) : RegionCoverageInfo :=
  { Covered := max self.Covered RHS.Covered
    NumRegions := max self.NumRegions RHS.NumRegions }

/-- The member `isFullyCovered`. -/
def isFullyCovered (self : RegionCoverageInfo) : Bool :=
  self.Covered == self.NumRegions

end RegionCoverageInfo

/-- Line coverage of a function or file: `Covered` out of `NumLines`. -/
@[ext]
structure LineCoverageInfo where
  Covered : Nat
  NumLines : Nat
deriving DecidableEq, Repr

namespace LineCoverageInfo

/-- The default constructor `LineCoverageInfo()`. -/
def empty : LineCoverageInfo := ⟨0, 0⟩

/-- The constructor `LineCoverageInfo(Covered, NumLines)` with its assertion. -/
def create (Covered NumLines : Nat) : Except String LineCoverageInfo :=
  if Covered ≤ NumLines then .ok ⟨Covered, NumLines⟩
  else .error "Covered lines over-counted"

/-- The member `operator+=`. -/
def add (self RHS : LineCoverageInfo) : LineCoverageInfo :=
  { Covered := self.Covered + RHS.Covered
    NumLines := self.NumLines + RHS.NumLines }

/-- The member `merge`. -/
def merge (self RHS : LineCoverageInfo) : LineCoverageInfo :=
  { Covered := max self.Covered RHS.Covered
    NumLines := max self.NumLines RHS.NumLines }

/-- The member `isFullyCovered`. -/
def isFullyCovered (self : LineCoverageInfo) : Bool :=
  self.Covered == self.NumLines

end LineCoverageInfo

/-- Branch coverage of a function or file: `Covered` out of `NumBranches`. -/
@[ext]
structure BranchCoverageInfo where
  Covered : Nat
  NumBranches : Nat
deriving DecidableEq, Repr

namespace BranchCoverageInfo

/-- The default constructor `BranchCoverageInfo()`. -/
def empty : BranchCoverageInfo := ⟨0, 0⟩

/-- The constructor `BranchCoverageInfo(Covered, NumBranches)` with its assertion. -/
def create (Covered NumBranches : Nat) : Except String BranchCoverageInfo :=
  if Covered ≤ NumBranches then .ok ⟨Covered, NumBranches⟩
  else .error "Covered branches over-counted"

/-- The member `operator+=`. -/
def add (self RHS : BranchCoverageInfo) : BranchCoverageInfo :=
  { Covered := self.Covered + RHS.Covered
    NumBranches := self.NumBranches + RHS.NumBranches }

/-- The member `merge`. -/
def merge (self RHS : BranchCoverageInfo) : BranchCoverageInfo :=
  { Covered := max self.Covered RHS.Covered
    NumBranches := max self.NumBranches RHS.NumBranches }

/-- The member `isFullyCovered`. -/
def isFullyCovered (self : BranchCoverageInfo) : Bool :=
  self.Covered == self.NumBranches

end BranchCoverageInfo

/-- MC/DC coverage of a function or file: independence pairs, decisions, and
the decisions counted by their number of conditions (2 to 6). -/
@[ext]
structure MCDCCoverageInfo where
  CoveredPairs : Nat
  NumPairs : Nat
  NumDecisions : Nat
  NumDecisions2 : Nat
  NumDecisions3 : Nat
  NumDecisions4 : Nat
  NumDecisions5 : Nat
  NumDecisions6 : Nat
  NumPairsAll : Nat
  NumDecisionsWithAtLeastTwoNonConstCond : Nat
deriving DecidableEq, Repr

namespace MCDCCoverageInfo

/-- The default constructor `MCDCCoverageInfo()`. -/
def empty : MCDCCoverageInfo := ⟨0, 0, 0, 0, 0, 0, 0, 0, 0, 0⟩

/-- The ten-argument constructor of `MCDCCoverageInfo` with its assertion. -/
def create (CoveredPairs NumPairs NumDecisions NumDecisions2 NumDecisions3
    NumDecisions4 NumDecisions5 NumDecisions6 NumPairsAll
    NumDecisionsWithAtLeastTwoNonConstCond : Nat) : Except String MCDCCoverageInfo :=
  if CoveredPairs ≤ NumPairs then
    .ok ⟨CoveredPairs, NumPairs, NumDecisions, NumDecisions2, NumDecisions3,
      NumDecisions4, NumDecisions5, NumDecisions6, NumPairsAll,
      NumDecisionsWithAtLeastTwoNonConstCond⟩
  else .error "Covered pairs over-counted"

/-- The member `operator+=`. -/
def add (self RHS : MCDCCoverageInfo) : MCDCCoverageInfo :=
  { CoveredPairs := self.CoveredPairs + RHS.CoveredPairs
    NumPairs := self.NumPairs + RHS.NumPairs
    NumDecisions := self.NumDecisions + RHS.NumDecisions
    NumDecisions2 := self.NumDecisions2 + RHS.NumDecisions2
    NumDecisions3 := self.NumDecisions3 + RHS.NumDecisions3
    NumDecisions4 := self.NumDecisions4 + RHS.NumDecisions4
    NumDecisions5 := self.NumDecisions5 + RHS.NumDecisions5
    NumDecisions6 := self.NumDecisions6 + RHS.NumDecisions6
    NumPairsAll := self.NumPairsAll + RHS.NumPairsAll
    NumDecisionsWithAtLeastTwoNonConstCond :=
      self.NumDecisionsWithAtLeastTwoNonConstCond
        + RHS.NumDecisionsWithAtLeastTwoNonConstCond }

/-- The value the member `merge` leaves in its output reference
`SomethingWrong`: first `false`, then `true` from either of the two checks. -/
def mergeSomethingWrong (self RHS : MCDCCoverageInfo) : Bool :=
  let SomethingWrong := false
  let SomethingWrong :=
    if self.NumPairs != 0 && RHS.NumPairs != 0 then
      if self.NumPairs != RHS.NumPairs then true else SomethingWrong
    else SomethingWrong
  let SomethingWrong :=
    if self.NumDecisions != 0 && RHS.NumDecisions != 0 then
      if self.NumDecisions != RHS.NumDecisions then true else SomethingWrong
    else SomethingWrong
  SomethingWrong

/-- The object the member `merge` leaves in `*this`. -/
def mergeFields (self RHS : MCDCCoverageInfo) : MCDCCoverageInfo :=
  { CoveredPairs := max self.CoveredPairs RHS.CoveredPairs
    NumPairs := max self.NumPairs RHS.NumPairs
    NumDecisions := max self.NumDecisions RHS.NumDecisions
    NumDecisions2 := max self.NumDecisions2 RHS.NumDecisions2
    NumDecisions3 := max self.NumDecisions3 RHS.NumDecisions3
    NumDecisions4 := max self.NumDecisions4 RHS.NumDecisions4
    NumDecisions5 := max self.NumDecisions5 RHS.NumDecisions5
    NumDecisions6 := max self.NumDecisions6 RHS.NumDecisions6
    NumPairsAll := max self.NumPairsAll RHS.NumPairsAll
    NumDecisionsWithAtLeastTwoNonConstCond :=
      max self.NumDecisionsWithAtLeastTwoNonConstCond
        RHS.NumDecisionsWithAtLeastTwoNonConstCond }

/-- The member `merge(RHS, SomethingWrong)`: the updated object together with
the flag written to `SomethingWrong`. The checks read `NumPairs` and
`NumDecisions` before the maxima are stored. -/
def merge (self RHS : MCDCCoverageInfo) : MCDCCoverageInfo × Bool :=
  (mergeFields self RHS, mergeSomethingWrong self RHS)

/-- The member `isFullyCovered`. -/
def isFullyCovered (self : MCDCCoverageInfo) : Bool :=
  self.CoveredPairs == self.NumPairs

end MCDCCoverageInfo

/-- Function coverage of a file: `Executed` out of `NumFunctions`. -/
@[ext]
structure FunctionCoverageInfo where
  Executed : Nat
  NumFunctions : Nat
deriving DecidableEq, Repr

namespace FunctionCoverageInfo

/-- The default constructor `FunctionCoverageInfo()`. -/
def empty : FunctionCoverageInfo := ⟨0, 0⟩

/-- The member `operator+=`. -/
def add (self RHS : FunctionCoverageInfo) : FunctionCoverageInfo :=
  { Executed := self.Executed + RHS.Executed
    NumFunctions := self.NumFunctions + RHS.NumFunctions }

/-- The member `addFunction(Covered)`. -/
def addFunction (self : FunctionCoverageInfo) (Covered : Bool) : FunctionCoverageInfo :=
  let Executed := if Covered then self.Executed + 1 else self.Executed
  { Executed := Executed, NumFunctions := self.NumFunctions + 1 }

/-- The member `isFullyCovered`. -/
def isFullyCovered (self : FunctionCoverageInfo) : Bool :=
  self.Executed == self.NumFunctions

end FunctionCoverageInfo

/-! ## Records supplied by the coverage-mapping subsystem -/

/-- Modelled from the spec: the kind tag of a counted region
(`CounterMappingRegion::RegionKind`, declared outside these files). -/
inductive RegionKind where
  | CodeRegion
  | ExpansionRegion
  | SkippedRegion
  | GapRegion
  | BranchRegion
  | MCDCDecisionRegion
  | MCDCBranchRegion
deriving DecidableEq, Repr

/-- Modelled from the spec: a counted region or branch record (`CountedRegion`,
declared outside these files), with the members the summaries read. -/
structure CountedRegion where
  Kind : RegionKind
  ExecutionCount : Nat
  FalseExecutionCount : Nat
  Folded : Bool
deriving DecidableEq, Repr

/-- Modelled from the spec: an expansion record (`ExpansionRecord`, declared
outside these files); it identifies a nested coverage-data scope. -/
structure ExpansionRecord where
  FileID : Nat
deriving DecidableEq, Repr

/-- Modelled from the spec: an MC/DC decision record (`MCDCRecord`, declared
outside these files): its number of conditions, the folded flag and the
independence-pair-covered predicate of each condition. -/
structure MCDCRecord where
  getNumConditions : Nat
  isCondFolded : Nat → Bool
  isConditionIndependencePairCovered : Nat → Bool

/-- Modelled from the spec: one line of the per-line view of a function
(`LineCoverageStats`, declared outside these files). -/
structure LineCoverageStats where
  isMapped : Bool
  getExecutionCount : Nat
deriving DecidableEq, Repr

/-- Modelled from the spec: the coverage data of a function or expansion
(`CoverageData`, declared outside these files). `getLineCoverageStats` is the
per-line view that `getLineCoverageStats(CD)` iterates. -/
structure CoverageData where
  getBranches : List CountedRegion
  getExpansions : List ExpansionRecord
  getMCDCRecords : List MCDCRecord
  getLineCoverageStats : List LineCoverageStats

/-- Modelled from the spec: a function record (`FunctionRecord`, declared
outside these files). -/
structure FunctionRecord where
  Name : String
  CountedRegions : List CountedRegion
  ExecutionCount : Nat

/-- Modelled from the spec: the queryable coverage-mapping object
(`CoverageMapping`, declared outside these files). -/
structure CoverageMapping where
  getCoverageForFunction : FunctionRecord → CoverageData
  getCoverageForExpansion : ExpansionRecord → CoverageData

/-- Modelled from the spec: an instantiation group (`InstantiationGroup`,
declared outside these files), with the members the group summary reads. -/
structure InstantiationGroup where
  hasName : Bool
  getName : String
  getLine : Nat
  getColumn : Nat
  getTotalExecutionCount : Nat

/-! ## Branch summation (`CoverageSummaryInfo.cpp`) -/

/-- The body of the loop of `sumBranches` for one branch record; the state is
`(NumBranches, CoveredBranches)`. -/
def sumBranchesStep (acc : Nat × Nat) (BR : CountedRegion) : Nat × Nat :=
  if BR.Folded then acc
  else
    let NumBranches := acc.1 + 1
    let CoveredBranches := if BR.ExecutionCount > 0 then acc.2 + 1 else acc.2
    let NumBranches := NumBranches + 1
    let CoveredBranches :=
      if BR.FalseExecutionCount > 0 then CoveredBranches + 1 else CoveredBranches
    (NumBranches, CoveredBranches)

/-- The function `sumBranches`: the new values of the two references
`(NumBranches, CoveredBranches)`. -/
def sumBranches (NumBranches CoveredBranches : Nat) (Branches : List CountedRegion) :
    Nat × Nat :=
  Branches.foldl sumBranchesStep (NumBranches, CoveredBranches)

/-- The function `sumBranchExpansions`. The C++ recursion follows the
expansions that `CM` resolves, so the embedding bounds the call depth by
`fuel`; `none` means the bound was reached. -/
def sumBranchExpansions (CM : CoverageMapping) :
    Nat → Nat × Nat → List ExpansionRecord → Option (Nat × Nat)
  | 0, _, _ => none
  | fuel + 1, acc, Expansions =>
    Expansions.foldlM (fun acc Expansion =>
      let CE := CM.getCoverageForExpansion Expansion
      let acc := sumBranches acc.1 acc.2 CE.getBranches
      sumBranchExpansions CM fuel acc CE.getExpansions) acc

/-! ## MC/DC summation (`CoverageSummaryInfo.cpp`) -/

/-- The values `sumMCDCPairs` passes back through its eight references. -/
structure MCDCSums where
  NumPairs : Nat
  CoveredPairs : Nat
  NumDecisions : Nat
  NumDecisions2 : Nat
  NumDecisions3 : Nat
  NumDecisions4 : Nat
  NumDecisions5 : Nat
  NumDecisions6 : Nat
deriving DecidableEq, Repr

/-- The body of the inner loop of `sumMCDCPairs` for condition `C`. -/
def sumMCDCCondition (Record : MCDCRecord) (S : MCDCSums) (C : Nat) : MCDCSums :=
  let S := if !Record.isCondFolded C then { S with NumPairs := S.NumPairs + 1 } else S
  if Record.isConditionIndependencePairCovered C then
    { S with CoveredPairs := S.CoveredPairs + 1 }
  else S

/-- The body of the outer loop of `sumMCDCPairs` for one record: count the
decision, classify it by its number of conditions, then visit its conditions. -/
def sumMCDCRecord (S : MCDCSums) (Record : MCDCRecord) : Except String MCDCSums := do
  let S := { S with NumDecisions := S.NumDecisions + 1 }
  let NumConditions := Record.getNumConditions
  let S ←
    match NumConditions with
    | 2 => pure { S with NumDecisions2 := S.NumDecisions2 + 1 }
    | 3 => pure { S with NumDecisions3 := S.NumDecisions3 + 1 }
    | 4 => pure { S with NumDecisions4 := S.NumDecisions4 + 1 }
    | 5 => pure { S with NumDecisions5 := S.NumDecisions5 + 1 }
    | 6 => pure { S with NumDecisions6 := S.NumDecisions6 + 1 }
    | _ => throw "Encountered a decision whose num of conditions isn't \x7b2, 3, 4, 5, 6\x7d"
  pure ((List.range NumConditions).foldl (sumMCDCCondition Record) S)

/-- The reference-passing overload of `sumMCDCPairs`. It resets `NumPairs`,
`CoveredPairs` and `NumDecisions`; the five histogram counters keep the
values the caller passes in. -/
def sumMCDCPairs (Records : List MCDCRecord)
    (NumDecisions2 NumDecisions3 NumDecisions4 NumDecisions5 NumDecisions6 : Nat) :
    Except String MCDCSums :=
  Records.foldlM sumMCDCRecord
    { NumPairs := 0, CoveredPairs := 0, NumDecisions := 0
      NumDecisions2 := NumDecisions2, NumDecisions3 := NumDecisions3
      NumDecisions4 := NumDecisions4, NumDecisions5 := NumDecisions5
      NumDecisions6 := NumDecisions6 }

/-! ## Function summaries -/

/-- A summary of a function: one instantiation, or all instantiations merged. -/
structure FunctionCoverageSummary where
  Name : String
  ExecutionCount : Nat
  RegionCoverage : RegionCoverageInfo
  LineCoverage : LineCoverageInfo
  BranchCoverage : BranchCoverageInfo
  MCDCCoverage : MCDCCoverageInfo
deriving DecidableEq, Repr

/-- The body of the region loop of `FunctionCoverageSummary::get(CM, Function)`;
the state is `(NumCodeRegions, CoveredRegions)`. -/
def sumRegionsStep (acc : Nat × Nat) (CR : CountedRegion) : Nat × Nat :=
  if CR.Kind != RegionKind.CodeRegion then acc
  else
    let NumCodeRegions := acc.1 + 1
    let CoveredRegions := if CR.ExecutionCount != 0 then acc.2 + 1 else acc.2
    (NumCodeRegions, CoveredRegions)

/-- The body of the line loop of `FunctionCoverageSummary::get(CM, Function)`;
the state is `(NumLines, CoveredLines)`. -/
def sumLinesStep (acc : Nat × Nat) (LCS : LineCoverageStats) : Nat × Nat :=
  if !LCS.isMapped then acc
  else
    let NumLines := acc.1 + 1
    let CoveredLines := if LCS.getExecutionCount != 0 then acc.2 + 1 else acc.2
    (NumLines, CoveredLines)

namespace FunctionCoverageSummary

/-- The constructor `FunctionCoverageSummary(Name)`. -/
def ofName (Name : String) : FunctionCoverageSummary :=
  { Name := Name, ExecutionCount := 0
    RegionCoverage := RegionCoverageInfo.empty
    LineCoverage := LineCoverageInfo.empty
    BranchCoverage := BranchCoverageInfo.empty
    MCDCCoverage := MCDCCoverageInfo.empty }

/-- The function `FunctionCoverageSummary::get(CM, Function)`: the summary of
one function instantiation. `fuel` bounds the call depth of
`sumBranchExpansions` (`none`: bound reached); a failed assertion is
`Except.error`. The call site passes eight arguments to the ten-argument
constructor of `MCDCCoverageInfo`; the two it leaves out are the parameters
`NumPairsAll` and `NumDecisionsWithAtLeastTwoNonConstCond`. -/
def get (fuel : Nat) (CM : CoverageMapping) (Function : FunctionRecord)
    (NumPairsAll NumDecisionsWithAtLeastTwoNonConstCond : Nat) :
    Option (Except String FunctionCoverageSummary) :=
  -- Compute the region coverage.
  let Regions := Function.CountedRegions.foldl sumRegionsStep (0, 0)
  -- Compute the line coverage.
  let CD := CM.getCoverageForFunction Function
  let Lines := CD.getLineCoverageStats.foldl sumLinesStep (0, 0)
  -- Compute the branch coverage, including branches from expansions.
  let Branches := sumBranches 0 0 CD.getBranches
  match sumBranchExpansions CM fuel Branches CD.getExpansions with
  | none => none
  | some Branches =>
    some (do
      let M ← sumMCDCPairs CD.getMCDCRecords 0 0 0 0 0
      let RegionCoverage ← RegionCoverageInfo.create Regions.2 Regions.1
      let LineCoverage ← LineCoverageInfo.create Lines.2 Lines.1
      let BranchCoverage ← BranchCoverageInfo.create Branches.2 Branches.1
      let MCDCCoverage ← MCDCCoverageInfo.create M.CoveredPairs M.NumPairs M.NumDecisions
        M.NumDecisions2 M.NumDecisions3 M.NumDecisions4 M.NumDecisions5 M.NumDecisions6
        NumPairsAll NumDecisionsWithAtLeastTwoNonConstCond
      pure { Name := Function.Name, ExecutionCount := Function.ExecutionCount
             RegionCoverage := RegionCoverage, LineCoverage := LineCoverage
             BranchCoverage := BranchCoverage, MCDCCoverage := MCDCCoverage })

/-- The name `FunctionCoverageSummary::get(Group, Summaries)` gives the group. -/
def groupName (Group : InstantiationGroup) : String :=
  if Group.hasName then Group.getName
  else "Definition at line " ++ toString Group.getLine ++ ", column "
    ++ toString Group.getColumn

/-- The body of the loop of `FunctionCoverageSummary::get(Group, Summaries)`:
merge one more instance into the summary. The flag is the one
`MCDCCoverageInfo::merge` writes. -/
def mergeInstance (acc : FunctionCoverageSummary × Bool) (FCS : FunctionCoverageSummary) :
    FunctionCoverageSummary × Bool :=
  let Summary := acc.1
  let M := Summary.MCDCCoverage.merge FCS.MCDCCoverage
  ({ Summary with
      RegionCoverage := Summary.RegionCoverage.merge FCS.RegionCoverage
      LineCoverage := Summary.LineCoverage.merge FCS.LineCoverage
      BranchCoverage := Summary.BranchCoverage.merge FCS.BranchCoverage
      MCDCCoverage := M.1 }, M.2)

/-- The function `FunctionCoverageSummary::get(Group, Summaries, SomethingWrong)`
(named `getGroup` here, Lean having no overloading within a namespace): the
summary of an instantiation group, with the final value of the reference
`SomethingWrong` (its value on entry is the parameter). The header declares
the flag parameter and `MCDCCoverageInfo::merge` requires it; the definition
in `CoverageSummaryInfo.cpp` is written without it, so the flag is threaded
the way the declaration has it: every merge call overwrites it.
`Summaries[0]` on an empty array is out of bounds: `none`. -/
def getGroup (Group : InstantiationGroup) (Summaries : List FunctionCoverageSummary)
    (SomethingWrong : Bool) : Option (FunctionCoverageSummary × Bool) :=
  match Summaries with
  | [] => none
  | First :: Rest =>
    let Summary := ofName (groupName Group)
    let Summary := { Summary with ExecutionCount := Group.getTotalExecutionCount }
    let Summary := { Summary with RegionCoverage := First.RegionCoverage }
    let Summary := { Summary with LineCoverage := First.LineCoverage }
    let Summary := { Summary with BranchCoverage := First.BranchCoverage }
    let Summary := { Summary with MCDCCoverage := First.MCDCCoverage }
    some (Rest.foldl mergeInstance (Summary, SomethingWrong))

end FunctionCoverageSummary

/-! ## File summaries -/

/-- A summary of a file. -/
structure FileCoverageSummary where
  Name : String
  RegionCoverage : RegionCoverageInfo
  LineCoverage : LineCoverageInfo
  BranchCoverage : BranchCoverageInfo
  MCDCCoverage : MCDCCoverageInfo
  FunctionCoverage : FunctionCoverageInfo
  InstantiationCoverage : FunctionCoverageInfo
deriving DecidableEq, Repr

namespace FileCoverageSummary

/-- The constructor `FileCoverageSummary(Name)`. -/
def ofName (Name : String) : FileCoverageSummary :=
  { Name := Name
    RegionCoverage := RegionCoverageInfo.empty
    LineCoverage := LineCoverageInfo.empty
    BranchCoverage := BranchCoverageInfo.empty
    MCDCCoverage := MCDCCoverageInfo.empty
    FunctionCoverage := FunctionCoverageInfo.empty
    InstantiationCoverage := FunctionCoverageInfo.empty }

/-- The member `operator+=`. -/
def add (self RHS : FileCoverageSummary) : FileCoverageSummary :=
  { self with
    RegionCoverage := self.RegionCoverage.add RHS.RegionCoverage
    LineCoverage := self.LineCoverage.add RHS.LineCoverage
    FunctionCoverage := self.FunctionCoverage.add RHS.FunctionCoverage
    BranchCoverage := self.BranchCoverage.add RHS.BranchCoverage
    MCDCCoverage := self.MCDCCoverage.add RHS.MCDCCoverage
    InstantiationCoverage := self.InstantiationCoverage.add RHS.InstantiationCoverage }

/-- The member `addFunction`. -/
def addFunction (self : FileCoverageSummary) (Function : FunctionCoverageSummary) :
    FileCoverageSummary :=
  { self with
    RegionCoverage := self.RegionCoverage.add Function.RegionCoverage
    LineCoverage := self.LineCoverage.add Function.LineCoverage
    BranchCoverage := self.BranchCoverage.add Function.BranchCoverage
    MCDCCoverage := self.MCDCCoverage.add Function.MCDCCoverage
    FunctionCoverage := self.FunctionCoverage.addFunction (Function.ExecutionCount > 0) }

/-- The member `addInstantiation`. -/
def addInstantiation (self : FileCoverageSummary) (Function : FunctionCoverageSummary) :
    FileCoverageSummary :=
  { self with
    InstantiationCoverage :=
      self.InstantiationCoverage.addFunction (Function.ExecutionCount > 0) }

end FileCoverageSummary

/-! ## Percentages (`CoverageSummaryInfo.h`) -/

/-- The member `RegionCoverageInfo::getPercentCovered`, with its assertion, the
`double` arithmetic taken over the exact rationals (no rounding). -/
def RegionCoverageInfo.getPercentCovered (self : RegionCoverageInfo) : Except String ℚ :=
  if self.Covered ≤ self.NumRegions then
    if self.NumRegions == 0 then .ok 0
    else .ok ((self.Covered : ℚ) / (self.NumRegions : ℚ) * 100)
  else .error "Covered regions over-counted"

/-- The member `LineCoverageInfo::getPercentCovered`, with its assertion, the
`double` arithmetic taken over the exact rationals (no rounding). -/
def LineCoverageInfo.getPercentCovered (self : LineCoverageInfo) : Except String ℚ :=
  if self.Covered ≤ self.NumLines then
    if self.NumLines == 0 then .ok 0
    else .ok ((self.Covered : ℚ) / (self.NumLines : ℚ) * 100)
  else .error "Covered lines over-counted"

/-- The member `BranchCoverageInfo::getPercentCovered`, with its assertion, the
`double` arithmetic taken over the exact rationals (no rounding). -/
def BranchCoverageInfo.getPercentCovered (self : BranchCoverageInfo) : Except String ℚ :=
  if self.Covered ≤ self.NumBranches then
    if self.NumBranches == 0 then .ok 0
    else .ok ((self.Covered : ℚ) / (self.NumBranches : ℚ) * 100)
  else .error "Covered branches over-counted"

/-- The member `MCDCCoverageInfo::getPercentCovered`, with its assertion, the
`double` arithmetic taken over the exact rationals (no rounding). -/
def MCDCCoverageInfo.getPercentCovered (self : MCDCCoverageInfo) : Except String ℚ :=
  if self.CoveredPairs ≤ self.NumPairs then
    if self.NumPairs == 0 then .ok 0
    else .ok ((self.CoveredPairs : ℚ) / (self.NumPairs : ℚ) * 100)
  else .error "Covered pairs over-counted"

/-- The member `FunctionCoverageInfo::getPercentCovered`, with its assertion, the
`double` arithmetic taken over the exact rationals (no rounding). -/
def FunctionCoverageInfo.getPercentCovered (self : FunctionCoverageInfo) : Except String ℚ :=
  if self.Executed ≤ self.NumFunctions then
    if self.NumFunctions == 0 then .ok 0
    else .ok ((self.Executed : ℚ) / (self.NumFunctions : ℚ) * 100)
  else .error "Covered functions over-counted"

/-! ## Percentages in binary64 arithmetic (`CoverageSummaryInfo.h`) -/

/-- Round a rational to the nearest integer, a tie going to the even
neighbour. -/
def roundHalfEven (x : ℚ) : ℤ :=
  if x - ⌊x⌋ < 1 / 2 then ⌊x⌋
  else if 1 / 2 < x - ⌊x⌋ then ⌊x⌋ + 1
  else if ⌊x⌋ % 2 = 0 then ⌊x⌋ else ⌊x⌋ + 1

/-- The binary64 (`double`) number nearest to a non-negative rational `x`, a
tie going to the even significand. With `e = ⌊log₂ x⌋ - 52` the quotient
`x / 2^e` lies in `[2^52, 2^53)`; it is rounded to an integer significand of
53 bits and scaled back by `2^e`. The exponent range is not bounded: overflow
and subnormal numbers do not occur for counters below `2^64`, whose quotients
are 0 or lie in `[2^-64, 1]`. Negative numbers do not occur either and are
sent to 0. -/
def roundDouble (x : ℚ) : ℚ :=
  if x ≤ 0 then 0
  else (roundHalfEven (x / 2 ^ (Int.log 2 x - 52)) : ℚ) * 2 ^ (Int.log 2 x - 52)

/-- The expression `double(Covered) / double(Total) * 100.0` of
`getPercentCovered` in binary64 arithmetic: the two conversions, the quotient
and the product are each rounded. -/
def percentDouble (Covered Total : Nat) : ℚ :=
  roundDouble (roundDouble (roundDouble (Covered : ℚ) / roundDouble (Total : ℚ)) * 100)

/-- The member `RegionCoverageInfo::getPercentCovered`, with its assertion, in
binary64 arithmetic. -/
def RegionCoverageInfo.getPercentCoveredDouble (self : RegionCoverageInfo) :
    Except String ℚ :=
  if self.Covered ≤ self.NumRegions then
    if self.NumRegions == 0 then .ok 0
    else .ok (percentDouble self.Covered self.NumRegions)
  else .error "Covered regions over-counted"

/-- The member `LineCoverageInfo::getPercentCovered`, with its assertion, in
binary64 arithmetic. -/
def LineCoverageInfo.getPercentCoveredDouble (self : LineCoverageInfo) :
    Except String ℚ :=
  if self.Covered ≤ self.NumLines then
    if self.NumLines == 0 then .ok 0
    else .ok (percentDouble self.Covered self.NumLines)
  else .error "Covered lines over-counted"

/-- The member `BranchCoverageInfo::getPercentCovered`, with its assertion, in
binary64 arithmetic. -/
def BranchCoverageInfo.getPercentCoveredDouble (self : BranchCoverageInfo) :
    Except String ℚ :=
  if self.Covered ≤ self.NumBranches then
    if self.NumBranches == 0 then .ok 0
    else .ok (percentDouble self.Covered self.NumBranches)
  else .error "Covered branches over-counted"

/-- The member `MCDCCoverageInfo::getPercentCovered`, with its assertion, in
binary64 arithmetic. -/
def MCDCCoverageInfo.getPercentCoveredDouble (self : MCDCCoverageInfo) :
    Except String ℚ :=
  if self.CoveredPairs ≤ self.NumPairs then
    if self.NumPairs == 0 then .ok 0
    else .ok (percentDouble self.CoveredPairs self.NumPairs)
  else .error "Covered pairs over-counted"

/-- The member `FunctionCoverageInfo::getPercentCovered`, with its assertion,
in binary64 arithmetic. -/
def FunctionCoverageInfo.getPercentCoveredDouble (self : FunctionCoverageInfo) :
    Except String ℚ :=
  if self.Executed ≤ self.NumFunctions then
    if self.NumFunctions == 0 then .ok 0
    else .ok (percentDouble self.Executed self.NumFunctions)
  else .error "Covered functions over-counted"

/-! ## Specification vocabulary -/

/-- The number `v` is the maximum of the field `f` over the list `l`: some
element of `l` has it, and no element of `l` exceeds it. -/
def IsMaxOver {α : Type} (l : List α) (f : α → Nat) (v : Nat) : Prop :=
  (∃ x ∈ l, f x = v) ∧ ∀ x ∈ l, f x ≤ v

/-- A finite expansion tree: the branch records of the coverage data an
expansion resolves to, and the trees of that data's own nested expansions. -/
inductive ExpansionTree where
  | node (Branches : List CountedRegion) (Nested : List ExpansionTree)

mutual
/-- The expansion `E` resolves under `CM` to the tree `T`: its coverage data
has the branches of the root, and its nested expansions resolve to the
subtrees, one each and in order. -/
def ExpansionTree.Resolves (CM : CoverageMapping) : ExpansionRecord → ExpansionTree → Prop
  | E, .node Branches Nested =>
    (CM.getCoverageForExpansion E).getBranches = Branches ∧
      ExpansionTree.ResolvesAll CM (CM.getCoverageForExpansion E).getExpansions Nested
/-- The expansions of a list resolve to the trees of a list, one each. -/
def ExpansionTree.ResolvesAll (CM : CoverageMapping) :
    List ExpansionRecord → List ExpansionTree → Prop
  | [], [] => True
  | E :: Es, T :: Ts => ExpansionTree.Resolves CM E T ∧ ExpansionTree.ResolvesAll CM Es Ts
  | [], _ :: _ => False
  | _ :: _, [] => False
end

mutual
/-- The branch lists of all nodes of a tree, each node once. -/
def ExpansionTree.branchLists : ExpansionTree → List (List CountedRegion)
  | .node Branches Nested => Branches :: ExpansionTree.branchListsAll Nested
/-- The branch lists of all nodes of a list of trees, each node once. -/
def ExpansionTree.branchListsAll : List ExpansionTree → List (List CountedRegion)
  | [] => []
  | T :: Ts => T.branchLists ++ ExpansionTree.branchListsAll Ts
end

mutual
/-- The number of nodes on the longest path from the root of a tree. -/
def ExpansionTree.depth : ExpansionTree → Nat
  | .node _ Nested => ExpansionTree.depthAll Nested + 1
/-- The largest depth among the trees of a list. -/
def ExpansionTree.depthAll : List ExpansionTree → Nat
  | [] => 0
  | T :: Ts => max T.depth (ExpansionTree.depthAll Ts)
end

/-- The sum of what `sumBranches` contributes for each branch list of `Ls`
taken on its own: `(total, covered)`. -/
def sumContributions (Ls : List (List CountedRegion)) : Nat × Nat :=
  ((Ls.map (fun Branches => (sumBranches 0 0 Branches).1)).sum,
   (Ls.map (fun Branches => (sumBranches 0 0 Branches).2)).sum)

/-- The number of conditions of a decision record that are not folded. -/
def MCDCRecord.numNonFolded (R : MCDCRecord) : Nat :=
  (List.range R.getNumConditions).countP (fun C => !R.isCondFolded C)

/-- The number of conditions of a decision record whose independence pair is
covered, folded or not. -/
def MCDCRecord.numCovered (R : MCDCRecord) : Nat :=
  (List.range R.getNumConditions).countP (fun C => R.isConditionIndependencePairCovered C)

/-- The number of conditions of a decision record that are not folded and
whose independence pair is covered. -/
def MCDCRecord.numNonFoldedCovered (R : MCDCRecord) : Nat :=
  (List.range R.getNumConditions).countP
    (fun C => !R.isCondFolded C && R.isConditionIndependencePairCovered C)

/-- A decision record of two conditions whose first condition is folded and
has its independence pair reported covered. -/
def foldedCoveredRecord : MCDCRecord :=
  { getNumConditions := 2
    isCondFolded := fun C => C == 0
    isConditionIndependencePairCovered := fun C => C == 0 }

/-- An example coverage mapping: the function has a branch, a decision of two
and a decision of three conditions, and expansion 1; expansion 1 has a branch and the nested expansion 2; expansion 2 has a folded
and a non-folded branch. -/
def exampleCM : CoverageMapping where
  getCoverageForFunction := fun _ =>
    { getBranches := [⟨RegionKind.BranchRegion, 3, 0, false⟩]
      getExpansions := [⟨1⟩]
      getMCDCRecords :=
        [⟨2, fun _ => false, fun C => C == 0⟩, ⟨3, fun C => C == 2, fun C => C == 1⟩]
      getLineCoverageStats := [⟨true, 1⟩, ⟨false, 0⟩] }
  getCoverageForExpansion := fun E =>
    match E.FileID with
    | 1 =>
      { getBranches := [⟨RegionKind.BranchRegion, 1, 1, false⟩]
        getExpansions := [⟨2⟩]
        getMCDCRecords := []
        getLineCoverageStats := [] }
    | 2 =>
      { getBranches :=
          [⟨RegionKind.BranchRegion, 5, 5, true⟩, ⟨RegionKind.BranchRegion, 0, 0, false⟩]
        getExpansions := []
        getMCDCRecords := []
        getLineCoverageStats := [] }
    | _ =>
      { getBranches := [], getExpansions := [], getMCDCRecords := []
        getLineCoverageStats := [] }

/-- A coverage mapping whose only decision record is `foldedCoveredRecord`;
it has no branches, lines or expansions. -/
def foldedCoveredCM : CoverageMapping where
  getCoverageForFunction := fun _ =>
    { getBranches := [], getExpansions := [], getMCDCRecords := [foldedCoveredRecord]
      getLineCoverageStats := [] }
  getCoverageForExpansion := fun _ =>
    { getBranches := [], getExpansions := [], getMCDCRecords := []
      getLineCoverageStats := [] }

/-- A decision record of two conditions, both folded and both with their
independence pair reported covered. -/
def allFoldedCoveredRecord : MCDCRecord :=
  { getNumConditions := 2
    isCondFolded := fun _ => true
    isConditionIndependencePairCovered := fun _ => true }

/-- A coverage mapping whose only decision record is `allFoldedCoveredRecord`;
it has no branches, lines or expansions. -/
def allFoldedCoveredCM : CoverageMapping where
  getCoverageForFunction := fun _ =>
    { getBranches := [], getExpansions := [], getMCDCRecords := [allFoldedCoveredRecord]
      getLineCoverageStats := [] }
  getCoverageForExpansion := fun _ =>
    { getBranches := [], getExpansions := [], getMCDCRecords := []
      getLineCoverageStats := [] }

/-- A decision record of seven conditions, none folded, none covered. -/
def sevenConditionRecord : MCDCRecord :=
  { getNumConditions := 7
    isCondFolded := fun _ => false
    isConditionIndependencePairCovered := fun _ => false }

/-- A coverage mapping whose decision records are one of three conditions and
`sevenConditionRecord`; it has no branches, lines or expansions. -/
def sevenConditionCM : CoverageMapping where
  getCoverageForFunction := fun _ =>
    { getBranches := [], getExpansions := []
      getMCDCRecords := [⟨3, fun _ => false, fun _ => true⟩, sevenConditionRecord]
      getLineCoverageStats := [] }
  getCoverageForExpansion := fun _ =>
    { getBranches := [], getExpansions := [], getMCDCRecords := []
      getLineCoverageStats := [] }

/-- A function record with counted regions of several kinds: an executed and
an unexecuted code region, and executed gap, skipped, expansion and branch
regions. -/
def mixedRegionsFunction : FunctionRecord :=
  { Name := "g"
    CountedRegions :=
      [⟨RegionKind.CodeRegion, 4, 0, false⟩, ⟨RegionKind.GapRegion, 4, 0, false⟩,
       ⟨RegionKind.CodeRegion, 0, 0, false⟩, ⟨RegionKind.SkippedRegion, 1, 0, false⟩,
       ⟨RegionKind.ExpansionRegion, 2, 0, false⟩, ⟨RegionKind.BranchRegion, 2, 2, false⟩]
    ExecutionCount := 4 }

/-- The flags that the successive calls of `MCDCCoverageInfo::merge` write
when the accumulators of `Rest` are merged one after the other into `Acc`, as
the loop of the group summary does; one flag for each merge step. -/
def mergeFlags : MCDCCoverageInfo → List MCDCCoverageInfo → List Bool
  | _, [] => []
  | Acc, RHS :: Rest => (Acc.merge RHS).2 :: mergeFlags (Acc.merge RHS).1 Rest

/-- Two of the numbers of the list are nonzero and different. -/
def Conflicting (vs : List Nat) : Prop :=
  ∃ a ∈ vs, ∃ b ∈ vs, a ≠ 0 ∧ b ≠ 0 ∧ a ≠ b

/-- Two accumulators of the list have different nonzero `NumPairs`, or two
have different nonzero `NumDecisions`. -/
def Inconsistent (l : List MCDCCoverageInfo) : Prop :=
  (∃ A ∈ l, ∃ B ∈ l, A.NumPairs ≠ 0 ∧ B.NumPairs ≠ 0 ∧ A.NumPairs ≠ B.NumPairs) ∨
  (∃ A ∈ l, ∃ B ∈ l,
    A.NumDecisions ≠ 0 ∧ B.NumDecisions ≠ 0 ∧ A.NumDecisions ≠ B.NumDecisions)

/-- An MC/DC accumulator with `NumPairs = n` and every other field zero. -/
def pairsOnly (n : Nat) : MCDCCoverageInfo :=
  { MCDCCoverageInfo.empty with NumPairs := n }

/-- An instance summary whose MC/DC accumulator is `pairsOnly n`. -/
def pairsOnlySummary (n : Nat) : FunctionCoverageSummary :=
  { FunctionCoverageSummary.ofName "f" with MCDCCoverage := pairsOnly n }

/-- A decision record of `n` conditions, none folded, none covered. -/
def plainRecord (n : Nat) : MCDCRecord :=
  { getNumConditions := n
    isCondFolded := fun _ => false
    isConditionIndependencePairCovered := fun _ => false }

/-- The MC/DC accumulator of an instance with two decisions of three
conditions each, none folded, none covered. -/
def twoTernaryDecisions : MCDCCoverageInfo :=
  { CoveredPairs := 0, NumPairs := 6, NumDecisions := 2
    NumDecisions2 := 0, NumDecisions3 := 2, NumDecisions4 := 0
    NumDecisions5 := 0, NumDecisions6 := 0
    NumPairsAll := 6, NumDecisionsWithAtLeastTwoNonConstCond := 2 }

/-- The MC/DC accumulator of an instance with one decision of two and one of
four conditions, none folded, none covered. -/
def binaryAndQuaternaryDecisions : MCDCCoverageInfo :=
  { CoveredPairs := 0, NumPairs := 6, NumDecisions := 2
    NumDecisions2 := 1, NumDecisions3 := 0, NumDecisions4 := 1
    NumDecisions5 := 0, NumDecisions6 := 0
    NumPairsAll := 6, NumDecisionsWithAtLeastTwoNonConstCond := 2 }

/-- A coverage mapping of a function without decisions, mapped lines or
expansions, whose only branch is folded. -/
def nothingToCoverCM : CoverageMapping where
  getCoverageForFunction := fun _ =>
    { getBranches := [⟨RegionKind.BranchRegion, 2, 1, true⟩], getExpansions := []
      getMCDCRecords := [], getLineCoverageStats := [⟨false, 0⟩] }
  getCoverageForExpansion := fun _ =>
    { getBranches := [], getExpansions := [], getMCDCRecords := []
      getLineCoverageStats := [] }

/-- A function record without code regions: its only region is a gap. -/
def nothingToCoverFunction : FunctionRecord :=
  { Name := "h", CountedRegions := [⟨RegionKind.GapRegion, 2, 0, false⟩], ExecutionCount := 2 }

/-- An example instantiation group without a name. -/
def exampleGroup : InstantiationGroup :=
  { hasName := false, getName := "", getLine := 3, getColumn := 7, getTotalExecutionCount := 4 }

/-- An example instance summary: reached and partly covered. -/
def exampleSummaryA : FunctionCoverageSummary :=
  { Name := "f", ExecutionCount := 1
    RegionCoverage := ⟨2, 5⟩, LineCoverage := ⟨4, 10⟩, BranchCoverage := ⟨1, 2⟩
    MCDCCoverage := ⟨2, 4, 2, 2, 0, 0, 0, 0, 4, 2⟩ }

/-- An example instance summary: reached, with other counts than `exampleSummaryA`. -/
def exampleSummaryB : FunctionCoverageSummary :=
  { Name := "f", ExecutionCount := 3
    RegionCoverage := ⟨3, 5⟩, LineCoverage := ⟨6, 10⟩, BranchCoverage := ⟨2, 2⟩
    MCDCCoverage := ⟨3, 6, 2, 0, 2, 0, 0, 0, 6, 2⟩ }

/-- An example instance summary: never invoked, all counts zero. -/
def exampleSummaryC : FunctionCoverageSummary :=
  { Name := "f", ExecutionCount := 0
    RegionCoverage := ⟨0, 0⟩, LineCoverage := ⟨0, 0⟩, BranchCoverage := ⟨0, 0⟩
    MCDCCoverage := MCDCCoverageInfo.empty }

/-- An example function record with one executed code region. -/
def exampleFunction : FunctionRecord :=
  { Name := "f", CountedRegions := [⟨RegionKind.CodeRegion, 3, 0, false⟩], ExecutionCount := 3 }

/-- The expansion trees of `exampleFunction` under `exampleCM`. -/
def exampleTrees : List ExpansionTree :=
  [.node [⟨RegionKind.BranchRegion, 1, 1, false⟩]
    [.node [⟨RegionKind.BranchRegion, 5, 5, true⟩, ⟨RegionKind.BranchRegion, 0, 0, false⟩] []]]

/-! ## Lemmas on the group fold -/

theorem foldl_proj_max {σ α : Type} (step : σ → α → σ) (p : σ → Nat) (g : α → Nat)
    (hstep : ∀ s x, p (step s x) = max (p s) (g x)) (l : List α) (s : σ) :
    p (l.foldl step s) = l.foldl (fun m x => max m (g x)) (p s) := by
  induction l generalizing s with
  | nil => rfl
  | cons a l ih => simp only [List.foldl_cons, ih, hstep]

theorem foldl_max_ge_init {α : Type} (g : α → Nat) (l : List α) (m : Nat) :
    m ≤ l.foldl (fun m x => max m (g x)) m := by
  induction l generalizing m with
  | nil => exact Nat.le_refl _
  | cons a l ih =>
    simp only [List.foldl_cons]
    exact Nat.le_trans (Nat.le_max_left _ _) (ih _)

theorem foldl_max_ge_mem {α : Type} (g : α → Nat) (l : List α) (m : Nat) :
    ∀ x ∈ l, g x ≤ l.foldl (fun m x => max m (g x)) m := by
  induction l generalizing m with
  | nil => intro x hx; cases hx
  | cons a l ih =>
    intro x hx
    simp only [List.foldl_cons]
    rcases List.mem_cons.mp hx with rfl | hx
    · exact Nat.le_trans (Nat.le_max_right _ _) (foldl_max_ge_init g l _)
    · exact ih _ x hx

theorem foldl_max_attained {α : Type} (g : α → Nat) (l : List α) (m : Nat) :
    l.foldl (fun m x => max m (g x)) m = m ∨
      ∃ x ∈ l, g x = l.foldl (fun m x => max m (g x)) m := by
  induction l generalizing m with
  | nil => exact Or.inl rfl
  | cons a l ih =>
    simp only [List.foldl_cons]
    rcases ih (max m (g a)) with h | ⟨x, hx, h⟩
    · rcases Nat.le_total m (g a) with hle | hle
      · right
        exact ⟨a, List.mem_cons_self _ _, by rw [h, Nat.max_eq_right hle]⟩
      · left
        rw [h, Nat.max_eq_left hle]
    · exact Or.inr ⟨x, List.mem_cons_of_mem _ hx, h⟩

theorem isMaxOver_foldl {α : Type} (g : α → Nat) (a : α) (l : List α) :
    IsMaxOver (a :: l) g (l.foldl (fun m x => max m (g x)) (g a)) := by
  constructor
  · rcases foldl_max_attained g l (g a) with h | ⟨x, hx, h⟩
    · exact ⟨a, List.mem_cons_self _ _, h.symm⟩
    · exact ⟨x, List.mem_cons_of_mem _ hx, h⟩
  · intro x hx
    rcases List.mem_cons.mp hx with rfl | hx
    · exact foldl_max_ge_init g l _
    · exact foldl_max_ge_mem g l _ x hx

theorem isMaxOver_unique {α : Type} {l l2 : List α} {f : α → Nat} {v w : Nat}
    (hp : l.Perm l2) (hv : IsMaxOver l f v) (hw : IsMaxOver l2 f w) : v = w := by
  obtain ⟨⟨x, hx, rfl⟩, hv2⟩ := hv
  obtain ⟨⟨y, hy, rfl⟩, hw2⟩ := hw
  exact Nat.le_antisymm (hw2 x (hp.subset hx)) (hv2 y (hp.symm.subset hy))

/-- Each field of the accumulators of a group summary is the fold of `max`
over the instances, hence the maximum over them. -/
theorem getGroup_field_max {Group : InstantiationGroup} {First : FunctionCoverageSummary}
    {Rest : List FunctionCoverageSummary} {SomethingWrong : Bool}
    {R : FunctionCoverageSummary × Bool}
    (hR : FunctionCoverageSummary.getGroup Group (First :: Rest) SomethingWrong = some R)
    (g : FunctionCoverageSummary → Nat)
    (hstep : ∀ s x, g (FunctionCoverageSummary.mergeInstance s x).1 = max (g s.1) (g x))
    (hinit : ∀ (N : String) (E : Nat) (F : FunctionCoverageSummary),
      g { F with Name := N, ExecutionCount := E } = g F) :
    IsMaxOver (First :: Rest) g (g R.1) := by
  simp only [FunctionCoverageSummary.getGroup, Option.some.injEq] at hR
  subst hR
  have h := foldl_proj_max FunctionCoverageSummary.mergeInstance (fun s => g s.1) g hstep Rest
  rw [h]
  have h0 := hinit (FunctionCoverageSummary.groupName Group) Group.getTotalExecutionCount First
  simp only [FunctionCoverageSummary.ofName] at *
  rw [h0]
  exact isMaxOver_foldl g First Rest

/-! ## Lemmas on branch summation -/

theorem sumBranches_eq_counts (NumBranches CoveredBranches : Nat)
    (Branches : List CountedRegion) :
    sumBranches NumBranches CoveredBranches Branches =
      (NumBranches + 2 * Branches.countP (fun BR => !BR.Folded),
       CoveredBranches
        + Branches.countP (fun BR => !BR.Folded && decide (BR.ExecutionCount > 0))
        + Branches.countP (fun BR => !BR.Folded && decide (BR.FalseExecutionCount > 0))) := by
  unfold sumBranches
  induction Branches generalizing NumBranches CoveredBranches with
  | nil => simp
  | cons BR Rest ih =>
    rw [List.foldl_cons]
    by_cases hF : BR.Folded = true
    · simp [sumBranchesStep, hF, ih, List.countP_cons]
    · by_cases hT : BR.ExecutionCount > 0 <;> by_cases hE : BR.FalseExecutionCount > 0 <;>
        simp [sumBranchesStep, hF, hT, hE, ih, List.countP_cons] <;> omega

theorem sumBranches_shift (NumBranches CoveredBranches : Nat) (Branches : List CountedRegion) :
    sumBranches NumBranches CoveredBranches Branches =
      (NumBranches + (sumBranches 0 0 Branches).1,
       CoveredBranches + (sumBranches 0 0 Branches).2) := by
  rw [sumBranches_eq_counts NumBranches CoveredBranches, sumBranches_eq_counts 0 0]
  simp [Nat.add_assoc]

theorem sumBranches_covered_le (Branches : List CountedRegion) :
    (sumBranches 0 0 Branches).2 ≤ (sumBranches 0 0 Branches).1 := by
  rw [sumBranches_eq_counts 0 0]
  simp only [Nat.zero_add]
  have h1 : Branches.countP (fun BR => !BR.Folded && decide (BR.ExecutionCount > 0))
      ≤ Branches.countP (fun BR => !BR.Folded) :=
    List.countP_mono_left (fun BR _ h => by simp at h ⊢; exact h.1) 
  have h2 : Branches.countP (fun BR => !BR.Folded && decide (BR.FalseExecutionCount > 0))
      ≤ Branches.countP (fun BR => !BR.Folded) :=
    List.countP_mono_left (fun BR _ h => by simp at h ⊢; exact h.1) 
  omega

theorem sumContributions_nil : sumContributions [] = (0, 0) := rfl

theorem sumContributions_cons (Bs : List CountedRegion) (Ls : List (List CountedRegion)) :
    sumContributions (Bs :: Ls) =
      ((sumBranches 0 0 Bs).1 + (sumContributions Ls).1,
       (sumBranches 0 0 Bs).2 + (sumContributions Ls).2) := by
  simp [sumContributions]

theorem sumContributions_append (Ls Ms : List (List CountedRegion)) :
    sumContributions (Ls ++ Ms) =
      ((sumContributions Ls).1 + (sumContributions Ms).1,
       (sumContributions Ls).2 + (sumContributions Ms).2) := by
  simp [sumContributions]

theorem sumContributions_covered_le (Ls : List (List CountedRegion)) :
    (sumContributions Ls).2 ≤ (sumContributions Ls).1 := by
  induction Ls with
  | nil => simp [sumContributions]
  | cons Bs Ls ih =>
    rw [sumContributions_cons]
    have := sumBranches_covered_le Bs
    simp only
    omega

/-- With more fuel than the trees are deep, `sumBranchExpansions` returns, and
it has added the contribution of every node of the trees once. -/
theorem sumBranchExpansions_resolved (CM : CoverageMapping) :
    ∀ (fuel : Nat) (Ts : List ExpansionTree) (Es : List ExpansionRecord) (acc : Nat × Nat),
      ExpansionTree.ResolvesAll CM Es Ts → ExpansionTree.depthAll Ts < fuel →
      sumBranchExpansions CM fuel acc Es =
        some (acc.1 + (sumContributions (ExpansionTree.branchListsAll Ts)).1,
              acc.2 + (sumContributions (ExpansionTree.branchListsAll Ts)).2) := by
  intro fuel
  induction fuel with
  | zero => intro Ts Es acc _ h; exact absurd h (Nat.not_lt_zero _)
  | succ fuel ihf =>
    intro Ts
    induction Ts with
    | nil =>
      intro Es acc hR _
      cases Es with
      | nil => simp [sumBranchExpansions, ExpansionTree.branchListsAll, sumContributions]
      | cons E Es => simp [ExpansionTree.ResolvesAll] at hR
    | cons T Ts iht =>
      intro Es acc hR hD
      cases Es with
      | nil => simp [ExpansionTree.ResolvesAll] at hR
      | cons E Es =>
        cases T with
        | node Bs Nested =>
          simp only [ExpansionTree.ResolvesAll, ExpansionTree.Resolves] at hR
          obtain ⟨⟨hB, hN⟩, hRest⟩ := hR
          simp only [ExpansionTree.depthAll, ExpansionTree.depth] at hD
          have hD1 : ExpansionTree.depthAll Nested < fuel := by omega
          have hD2 : ExpansionTree.depthAll Ts < fuel + 1 := by omega
          have hrest := iht Es
          simp only [sumBranchExpansions] at hrest ⊢
          rw [List.foldlM_cons]
          simp only [hB]
          rw [ihf Nested _ _ hN hD1]
          simp only [Option.bind_eq_bind, Option.some_bind]
          rw [hrest _ hRest hD2]
          rw [sumBranches_shift acc.1 acc.2 Bs]
          simp only [ExpansionTree.branchListsAll, ExpansionTree.branchLists,
            sumContributions_cons, sumContributions_append, List.cons_append]
          simp only [Option.some.injEq, Prod.mk.injEq]
          constructor <;> omega

/-! ## Lemmas on the constructors and on the region and line loops -/

theorem RegionCoverageInfo.create_region_ok {Covered NumRegions : Nat} (h : Covered ≤ NumRegions) :
    RegionCoverageInfo.create Covered NumRegions = .ok ⟨Covered, NumRegions⟩ := by
  simp [RegionCoverageInfo.create, h]

theorem LineCoverageInfo.create_line_ok {Covered NumLines : Nat} (h : Covered ≤ NumLines) :
    LineCoverageInfo.create Covered NumLines = .ok ⟨Covered, NumLines⟩ := by
  simp [LineCoverageInfo.create, h]

theorem BranchCoverageInfo.create_branch_ok {Covered NumBranches : Nat} (h : Covered ≤ NumBranches) :
    BranchCoverageInfo.create Covered NumBranches = .ok ⟨Covered, NumBranches⟩ := by
  simp [BranchCoverageInfo.create, h]

theorem sumRegions_covered_le (Regions : List CountedRegion) (acc : Nat × Nat)
    (h : acc.2 ≤ acc.1) :
    (Regions.foldl sumRegionsStep acc).2 ≤ (Regions.foldl sumRegionsStep acc).1 := by
  induction Regions generalizing acc with
  | nil => exact h
  | cons CR Rest ih =>
    rw [List.foldl_cons]
    apply ih
    unfold sumRegionsStep
    split
    · exact h
    · split <;> simp only <;> omega

theorem sumLines_covered_le (Lines : List LineCoverageStats) (acc : Nat × Nat)
    (h : acc.2 ≤ acc.1) :
    (Lines.foldl sumLinesStep acc).2 ≤ (Lines.foldl sumLinesStep acc).1 := by
  induction Lines generalizing acc with
  | nil => exact h
  | cons LCS Rest ih =>
    rw [List.foldl_cons]
    apply ih
    unfold sumLinesStep
    split
    · exact h
    · split <;> simp only <;> omega

/-! ## Lemmas on MC/DC summation -/

theorem foldl_sumMCDCCondition (R : MCDCRecord) (Cs : List Nat) (S : MCDCSums) :
    Cs.foldl (sumMCDCCondition R) S =
      { S with
        NumPairs := S.NumPairs + Cs.countP (fun C => !R.isCondFolded C)
        CoveredPairs :=
          S.CoveredPairs + Cs.countP (fun C => R.isConditionIndependencePairCovered C) } := by
  induction Cs generalizing S with
  | nil => simp
  | cons C Cs ih =>
    rw [List.foldl_cons, ih]
    cases hF : R.isCondFolded C <;> cases hC : R.isConditionIndependencePairCovered C <;>
      simp [sumMCDCCondition, hF, hC, List.countP_cons] <;> omega

theorem sumMCDCRecord_ok (S : MCDCSums) (R : MCDCRecord)
    (h : 2 ≤ R.getNumConditions ∧ R.getNumConditions ≤ 6) :
    sumMCDCRecord S R = .ok
      { NumPairs := S.NumPairs + R.numNonFolded
        CoveredPairs := S.CoveredPairs + R.numCovered
        NumDecisions := S.NumDecisions + 1
        NumDecisions2 := S.NumDecisions2 + (if R.getNumConditions = 2 then 1 else 0)
        NumDecisions3 := S.NumDecisions3 + (if R.getNumConditions = 3 then 1 else 0)
        NumDecisions4 := S.NumDecisions4 + (if R.getNumConditions = 4 then 1 else 0)
        NumDecisions5 := S.NumDecisions5 + (if R.getNumConditions = 5 then 1 else 0)
        NumDecisions6 := S.NumDecisions6 + (if R.getNumConditions = 6 then 1 else 0) } := by
  obtain ⟨h2, h6⟩ := h
  unfold sumMCDCRecord MCDCRecord.numNonFolded MCDCRecord.numCovered
  have hn : R.getNumConditions = 2 ∨ R.getNumConditions = 3 ∨ R.getNumConditions = 4 ∨
      R.getNumConditions = 5 ∨ R.getNumConditions = 6 := by omega
  rcases hn with hn | hn | hn | hn | hn <;>
    simp [hn, foldl_sumMCDCCondition, bind, Except.bind, pure, Except.pure]

theorem foldlM_sumMCDCRecord_ok (Records : List MCDCRecord) (S : MCDCSums)
    (h : ∀ R ∈ Records, 2 ≤ R.getNumConditions ∧ R.getNumConditions ≤ 6) :
    Records.foldlM sumMCDCRecord S = .ok
      { NumPairs := S.NumPairs + (Records.map MCDCRecord.numNonFolded).sum
        CoveredPairs := S.CoveredPairs + (Records.map MCDCRecord.numCovered).sum
        NumDecisions := S.NumDecisions + Records.length
        NumDecisions2 := S.NumDecisions2 + Records.countP (fun R => R.getNumConditions == 2)
        NumDecisions3 := S.NumDecisions3 + Records.countP (fun R => R.getNumConditions == 3)
        NumDecisions4 := S.NumDecisions4 + Records.countP (fun R => R.getNumConditions == 4)
        NumDecisions5 := S.NumDecisions5 + Records.countP (fun R => R.getNumConditions == 5)
        NumDecisions6 := S.NumDecisions6 + Records.countP (fun R => R.getNumConditions == 6) } := by
  induction Records generalizing S with
  | nil => simp [pure, Except.pure]
  | cons R Rs ih =>
    have hR := h R (List.mem_cons_self _ _)
    have hRs : ∀ R ∈ Rs, 2 ≤ R.getNumConditions ∧ R.getNumConditions ≤ 6 :=
      fun R hmem => h R (List.mem_cons_of_mem _ hmem)
    rw [List.foldlM_cons, sumMCDCRecord_ok S R hR]
    simp only [bind, Except.bind]
    rw [ih _ hRs]
    simp only [List.map_cons, List.sum_cons, List.length_cons, List.countP_cons, beq_iff_eq,
      Except.ok.injEq, MCDCSums.mk.injEq]
    refine ⟨?_, ?_, ?_, ?_, ?_, ?_, ?_, ?_⟩ <;> omega

/-- On records of 2 to 6 conditions `sumMCDCPairs` returns: the pairs are the
non-folded conditions, the covered pairs are the conditions reported covered,
the decisions are the records, and each histogram counter grows by the number
of records of its size. -/
theorem sumMCDCPairs_ok (Records : List MCDCRecord) (N2 N3 N4 N5 N6 : Nat)
    (h : ∀ R ∈ Records, 2 ≤ R.getNumConditions ∧ R.getNumConditions ≤ 6) :
    sumMCDCPairs Records N2 N3 N4 N5 N6 = .ok
      { NumPairs := (Records.map MCDCRecord.numNonFolded).sum
        CoveredPairs := (Records.map MCDCRecord.numCovered).sum
        NumDecisions := Records.length
        NumDecisions2 := N2 + Records.countP (fun R => R.getNumConditions == 2)
        NumDecisions3 := N3 + Records.countP (fun R => R.getNumConditions == 3)
        NumDecisions4 := N4 + Records.countP (fun R => R.getNumConditions == 4)
        NumDecisions5 := N5 + Records.countP (fun R => R.getNumConditions == 5)
        NumDecisions6 := N6 + Records.countP (fun R => R.getNumConditions == 6) } := by
  unfold sumMCDCPairs
  rw [foldlM_sumMCDCRecord_ok Records _ h]
  simp

theorem countP_sizes_sum (Records : List MCDCRecord)
    (h : ∀ R ∈ Records, 2 ≤ R.getNumConditions ∧ R.getNumConditions ≤ 6) :
    Records.countP (fun R => R.getNumConditions == 2)
      + Records.countP (fun R => R.getNumConditions == 3)
      + Records.countP (fun R => R.getNumConditions == 4)
      + Records.countP (fun R => R.getNumConditions == 5)
      + Records.countP (fun R => R.getNumConditions == 6) = Records.length := by
  induction Records with
  | nil => rfl
  | cons R Rs ih =>
    have hR := h R (List.mem_cons_self _ _)
    have ih := ih (fun R hmem => h R (List.mem_cons_of_mem _ hmem))
    have hn : R.getNumConditions = 2 ∨ R.getNumConditions = 3 ∨ R.getNumConditions = 4 ∨
        R.getNumConditions = 5 ∨ R.getNumConditions = 6 := by omega
    rcases hn with hn | hn | hn | hn | hn <;>
      simp [List.countP_cons, hn] <;> omega

/-! ## Lemmas on the summary of one instantiation -/

theorem sumBranchesStep_covered_le (acc : Nat × Nat) (BR : CountedRegion)
    (h : acc.2 ≤ acc.1) : (sumBranchesStep acc BR).2 ≤ (sumBranchesStep acc BR).1 := by
  unfold sumBranchesStep
  split
  · exact h
  · split <;> split <;> simp only <;> omega

theorem sumBranches_preserves_le (Branches : List CountedRegion) (acc : Nat × Nat)
    (h : acc.2 ≤ acc.1) :
    (sumBranches acc.1 acc.2 Branches).2 ≤ (sumBranches acc.1 acc.2 Branches).1 := by
  unfold sumBranches
  induction Branches generalizing acc with
  | nil => exact h
  | cons BR Rest ih =>
    rw [List.foldl_cons]
    exact ih (sumBranchesStep (acc.1, acc.2) BR) (sumBranchesStep_covered_le _ _ h)

/-- Whatever the expansions resolve to, a result of `sumBranchExpansions` has
no more covered branches than branches when its starting totals have. -/
theorem sumBranchExpansions_preserves_le (CM : CoverageMapping) :
    ∀ (fuel : Nat) (Es : List ExpansionRecord) (acc r : Nat × Nat),
      sumBranchExpansions CM fuel acc Es = some r → acc.2 ≤ acc.1 → r.2 ≤ r.1 := by
  intro fuel
  induction fuel with
  | zero => intro Es acc r h; simp [sumBranchExpansions] at h
  | succ fuel ihf =>
    intro Es
    induction Es with
    | nil =>
      intro acc r h hle
      simp [sumBranchExpansions, pure] at h
      rw [← h]; exact hle
    | cons E Es ihe =>
      intro acc r h hle
      have ihe2 := ihe
      simp only [sumBranchExpansions] at h ihe2
      rw [List.foldlM_cons] at h
      cases hE : sumBranchExpansions CM fuel
          (sumBranches acc.1 acc.2 (CM.getCoverageForExpansion E).getBranches)
          (CM.getCoverageForExpansion E).getExpansions with
      | none => simp [hE] at h
      | some acc2 =>
        simp only [hE, Option.bind_eq_bind, Option.some_bind] at h
        exact ihe2 acc2 r h (ihf _ _ _ hE (sumBranches_preserves_le _ acc hle))

/-- When the branch summation returns and the MC/DC summation passes its
assertions with no more covered pairs than pairs,
`FunctionCoverageSummary::get(CM, Function)` returns this summary. -/
theorem FunctionCoverageSummary.get_ok (fuel : Nat) (CM : CoverageMapping)
    (Function : FunctionRecord) (NumPairsAll NumDecisionsWithAtLeastTwoNonConstCond : Nat)
    (Br : Nat × Nat) (M : MCDCSums)
    (hB : sumBranchExpansions CM fuel
      (sumBranches 0 0 (CM.getCoverageForFunction Function).getBranches)
      (CM.getCoverageForFunction Function).getExpansions = some Br)
    (hM : sumMCDCPairs (CM.getCoverageForFunction Function).getMCDCRecords 0 0 0 0 0 = .ok M)
    (hle : M.CoveredPairs ≤ M.NumPairs) :
    FunctionCoverageSummary.get fuel CM Function NumPairsAll
        NumDecisionsWithAtLeastTwoNonConstCond =
      some (.ok
        { Name := Function.Name
          ExecutionCount := Function.ExecutionCount
          RegionCoverage :=
            ⟨(Function.CountedRegions.foldl sumRegionsStep (0, 0)).2,
             (Function.CountedRegions.foldl sumRegionsStep (0, 0)).1⟩
          LineCoverage :=
            ⟨((CM.getCoverageForFunction Function).getLineCoverageStats.foldl
                sumLinesStep (0, 0)).2,
             ((CM.getCoverageForFunction Function).getLineCoverageStats.foldl
                sumLinesStep (0, 0)).1⟩
          BranchCoverage := ⟨Br.2, Br.1⟩
          MCDCCoverage :=
            ⟨M.CoveredPairs, M.NumPairs, M.NumDecisions, M.NumDecisions2, M.NumDecisions3,
             M.NumDecisions4, M.NumDecisions5, M.NumDecisions6, NumPairsAll,
             NumDecisionsWithAtLeastTwoNonConstCond⟩ }) := by
  have hreg := sumRegions_covered_le Function.CountedRegions (0, 0) (Nat.le_refl _)
  have hlin := sumLines_covered_le
    (CM.getCoverageForFunction Function).getLineCoverageStats (0, 0) (Nat.le_refl _)
  have hbr := sumBranchExpansions_preserves_le CM fuel _ _ _ hB
    (sumBranches_preserves_le _ (0, 0) (Nat.le_refl _))
  simp only [FunctionCoverageSummary.get, hB, hM, RegionCoverageInfo.create_region_ok hreg,
    LineCoverageInfo.create_line_ok hlin, BranchCoverageInfo.create_branch_ok hbr]
  simp [MCDCCoverageInfo.create, hle, bind, Except.bind, pure, Except.pure]

/-- A summary returned by `FunctionCoverageSummary::get(CM, Function)` carries
the counts of the MC/DC summation, which passed its assertions. -/
theorem FunctionCoverageSummary.get_ok_inv (fuel : Nat) (CM : CoverageMapping)
    (Function : FunctionRecord) (NumPairsAll NumDecisionsWithAtLeastTwoNonConstCond : Nat)
    (S : FunctionCoverageSummary)
    (h : FunctionCoverageSummary.get fuel CM Function NumPairsAll
      NumDecisionsWithAtLeastTwoNonConstCond = some (.ok S)) :
    ∃ Br M, sumBranchExpansions CM fuel
        (sumBranches 0 0 (CM.getCoverageForFunction Function).getBranches)
        (CM.getCoverageForFunction Function).getExpansions = some Br ∧
      sumMCDCPairs (CM.getCoverageForFunction Function).getMCDCRecords 0 0 0 0 0 = .ok M ∧
      M.CoveredPairs ≤ M.NumPairs ∧
      S.BranchCoverage = ⟨Br.2, Br.1⟩ ∧
      S.MCDCCoverage =
        ⟨M.CoveredPairs, M.NumPairs, M.NumDecisions, M.NumDecisions2, M.NumDecisions3,
         M.NumDecisions4, M.NumDecisions5, M.NumDecisions6, NumPairsAll,
         NumDecisionsWithAtLeastTwoNonConstCond⟩ := by
  cases hB : sumBranchExpansions CM fuel
      (sumBranches 0 0 (CM.getCoverageForFunction Function).getBranches)
      (CM.getCoverageForFunction Function).getExpansions with
  | none => simp [FunctionCoverageSummary.get, hB] at h
  | some Br =>
    cases hM : sumMCDCPairs (CM.getCoverageForFunction Function).getMCDCRecords 0 0 0 0 0 with
    | error e =>
      simp [FunctionCoverageSummary.get, hB, hM, bind, Except.bind] at h
    | ok M =>
      by_cases hle : M.CoveredPairs ≤ M.NumPairs
      · have h2 := FunctionCoverageSummary.get_ok fuel CM Function NumPairsAll
          NumDecisionsWithAtLeastTwoNonConstCond Br M hB hM hle
        rw [h2] at h
        simp only [Option.some.injEq, Except.ok.injEq] at h
        refine ⟨Br, M, rfl, rfl, hle, ?_, ?_⟩ <;> rw [← h]
      · have hreg := sumRegions_covered_le Function.CountedRegions (0, 0) (Nat.le_refl _)
        have hlin := sumLines_covered_le
          (CM.getCoverageForFunction Function).getLineCoverageStats (0, 0) (Nat.le_refl _)
        have hbr := sumBranchExpansions_preserves_le CM fuel _ _ _ hB
          (sumBranches_preserves_le _ (0, 0) (Nat.le_refl _))
        simp only [FunctionCoverageSummary.get, hB, hM, RegionCoverageInfo.create_region_ok hreg,
          LineCoverageInfo.create_line_ok hlin, BranchCoverageInfo.create_branch_ok hbr] at h
        simp [MCDCCoverageInfo.create, hle, bind, Except.bind, pure, Except.pure] at h

/-! ## Group summaries are max-merges -/

/-- C1: for every instantiation group and every non-empty list of instance
summaries `First :: Rest`, `FunctionCoverageSummary::get(Group, Summaries)`
returns a summary in which every field of the region, line, branch and MC/DC
accumulators is the maximum of that field over the instances; region
coverages (2,5), (3,5), (0,0) give (3,5). -/
theorem C1_group_summary_is_fieldwise_max (Group : InstantiationGroup)
    (First : FunctionCoverageSummary) (Rest : List FunctionCoverageSummary)
    (SomethingWrong : Bool) :
    (∃ R, FunctionCoverageSummary.getGroup Group (First :: Rest) SomethingWrong = some R ∧
      IsMaxOver (First :: Rest) (fun s => s.RegionCoverage.Covered)
        R.1.RegionCoverage.Covered ∧
      IsMaxOver (First :: Rest) (fun s => s.RegionCoverage.NumRegions)
        R.1.RegionCoverage.NumRegions ∧
      IsMaxOver (First :: Rest) (fun s => s.LineCoverage.Covered)
        R.1.LineCoverage.Covered ∧
      IsMaxOver (First :: Rest) (fun s => s.LineCoverage.NumLines)
        R.1.LineCoverage.NumLines ∧
      IsMaxOver (First :: Rest) (fun s => s.BranchCoverage.Covered)
        R.1.BranchCoverage.Covered ∧
      IsMaxOver (First :: Rest) (fun s => s.BranchCoverage.NumBranches)
        R.1.BranchCoverage.NumBranches ∧
      IsMaxOver (First :: Rest) (fun s => s.MCDCCoverage.CoveredPairs)
        R.1.MCDCCoverage.CoveredPairs ∧
      IsMaxOver (First :: Rest) (fun s => s.MCDCCoverage.NumPairs)
        R.1.MCDCCoverage.NumPairs ∧
      IsMaxOver (First :: Rest) (fun s => s.MCDCCoverage.NumDecisions)
        R.1.MCDCCoverage.NumDecisions ∧
      IsMaxOver (First :: Rest) (fun s => s.MCDCCoverage.NumDecisions2)
        R.1.MCDCCoverage.NumDecisions2 ∧
      IsMaxOver (First :: Rest) (fun s => s.MCDCCoverage.NumDecisions3)
        R.1.MCDCCoverage.NumDecisions3 ∧
      IsMaxOver (First :: Rest) (fun s => s.MCDCCoverage.NumDecisions4)
        R.1.MCDCCoverage.NumDecisions4 ∧
      IsMaxOver (First :: Rest) (fun s => s.MCDCCoverage.NumDecisions5)
        R.1.MCDCCoverage.NumDecisions5 ∧
      IsMaxOver (First :: Rest) (fun s => s.MCDCCoverage.NumDecisions6)
        R.1.MCDCCoverage.NumDecisions6 ∧
      IsMaxOver (First :: Rest) (fun s => s.MCDCCoverage.NumPairsAll)
        R.1.MCDCCoverage.NumPairsAll ∧
      IsMaxOver (First :: Rest)
        (fun s => s.MCDCCoverage.NumDecisionsWithAtLeastTwoNonConstCond)
        R.1.MCDCCoverage.NumDecisionsWithAtLeastTwoNonConstCond) ∧
    (∀ S1 S2 S3 : FunctionCoverageSummary,
      (FunctionCoverageSummary.getGroup Group
        [{ S1 with RegionCoverage := ⟨2, 5⟩ }, { S2 with RegionCoverage := ⟨3, 5⟩ },
         { S3 with RegionCoverage := ⟨0, 0⟩ }] SomethingWrong).map
        (fun R => R.1.RegionCoverage) = some ⟨3, 5⟩) := by
  obtain ⟨R, hR⟩ :
      ∃ R, FunctionCoverageSummary.getGroup Group (First :: Rest) SomethingWrong = some R :=
    ⟨_, rfl⟩
  refine ⟨⟨R, hR, ?_, ?_, ?_, ?_, ?_, ?_, ?_, ?_, ?_, ?_, ?_, ?_, ?_, ?_, ?_, ?_⟩,
    fun S1 S2 S3 => rfl⟩ <;>
  exact getGroup_field_max hR _ (fun _ _ => rfl) (fun _ _ _ => rfl)

/-! ## The MC/DC merge and its consistency flag -/

/-- C2: `MCDCCoverageInfo::merge` sets `SomethingWrong` exactly when both
`NumPairs` are nonzero and differ, or both `NumDecisions` are nonzero and
differ; flagged or not, every field of the result is the maximum of the two
operands. Pairs 4 merged with a never-invoked instance (all zero) give 4 and
no flag; pairs 4 and 6 give 6 and the flag. -/
theorem C2_mcdc_merge_flag_iff_and_max (A B : MCDCCoverageInfo) :
    ((A.merge B).2 = true ↔
      (A.NumPairs ≠ 0 ∧ B.NumPairs ≠ 0 ∧ A.NumPairs ≠ B.NumPairs) ∨
      (A.NumDecisions ≠ 0 ∧ B.NumDecisions ≠ 0 ∧ A.NumDecisions ≠ B.NumDecisions)) ∧
    (A.merge B).1 =
      { CoveredPairs := max A.CoveredPairs B.CoveredPairs
        NumPairs := max A.NumPairs B.NumPairs
        NumDecisions := max A.NumDecisions B.NumDecisions
        NumDecisions2 := max A.NumDecisions2 B.NumDecisions2
        NumDecisions3 := max A.NumDecisions3 B.NumDecisions3
        NumDecisions4 := max A.NumDecisions4 B.NumDecisions4
        NumDecisions5 := max A.NumDecisions5 B.NumDecisions5
        NumDecisions6 := max A.NumDecisions6 B.NumDecisions6
        NumPairsAll := max A.NumPairsAll B.NumPairsAll
        NumDecisionsWithAtLeastTwoNonConstCond :=
          max A.NumDecisionsWithAtLeastTwoNonConstCond
            B.NumDecisionsWithAtLeastTwoNonConstCond } ∧
    (({ A with NumPairs := 4 }.merge MCDCCoverageInfo.empty).2 = false ∧
      ({ A with NumPairs := 4 }.merge MCDCCoverageInfo.empty).1.NumPairs = 4) ∧
    (({ A with NumPairs := 4 }.merge { B with NumPairs := 6 }).2 = true ∧
      ({ A with NumPairs := 4 }.merge { B with NumPairs := 6 }).1.NumPairs = 6) := by
  refine ⟨?_, rfl, ⟨?_, rfl⟩, ⟨?_, rfl⟩⟩
  · simp only [MCDCCoverageInfo.merge, MCDCCoverageInfo.mergeSomethingWrong]
    by_cases h1 : A.NumPairs = 0 <;> by_cases h2 : B.NumPairs = 0 <;>
      by_cases h3 : A.NumPairs = B.NumPairs <;>
      by_cases h4 : A.NumDecisions = 0 <;> by_cases h5 : B.NumDecisions = 0 <;>
      by_cases h6 : A.NumDecisions = B.NumDecisions <;>
      simp [h1, h2, h3, h4, h5, h6]
  · simp [MCDCCoverageInfo.merge, MCDCCoverageInfo.mergeSomethingWrong,
      MCDCCoverageInfo.empty]
  · simp [MCDCCoverageInfo.merge, MCDCCoverageInfo.mergeSomethingWrong]

/-! ## Adding a function to a file summary -/

/-- C3: `FileCoverageSummary::addFunction(S)` adds the region, line, branch
and MC/DC accumulators of `S` field by field, counts one more function, one
more executed function exactly when `S.ExecutionCount > 0`, and leaves
`InstantiationCoverage` and `Name` as they were; line coverages (4,10) and
(6,10) added to an empty file summary give (10,20). -/
theorem C3_addFunction_adds_fieldwise (F : FileCoverageSummary)
    (S : FunctionCoverageSummary) :
    (F.addFunction S).RegionCoverage =
      ⟨F.RegionCoverage.Covered + S.RegionCoverage.Covered,
       F.RegionCoverage.NumRegions + S.RegionCoverage.NumRegions⟩ ∧
    (F.addFunction S).LineCoverage =
      ⟨F.LineCoverage.Covered + S.LineCoverage.Covered,
       F.LineCoverage.NumLines + S.LineCoverage.NumLines⟩ ∧
    (F.addFunction S).BranchCoverage =
      ⟨F.BranchCoverage.Covered + S.BranchCoverage.Covered,
       F.BranchCoverage.NumBranches + S.BranchCoverage.NumBranches⟩ ∧
    (F.addFunction S).MCDCCoverage =
      { CoveredPairs := F.MCDCCoverage.CoveredPairs + S.MCDCCoverage.CoveredPairs
        NumPairs := F.MCDCCoverage.NumPairs + S.MCDCCoverage.NumPairs
        NumDecisions := F.MCDCCoverage.NumDecisions + S.MCDCCoverage.NumDecisions
        NumDecisions2 := F.MCDCCoverage.NumDecisions2 + S.MCDCCoverage.NumDecisions2
        NumDecisions3 := F.MCDCCoverage.NumDecisions3 + S.MCDCCoverage.NumDecisions3
        NumDecisions4 := F.MCDCCoverage.NumDecisions4 + S.MCDCCoverage.NumDecisions4
        NumDecisions5 := F.MCDCCoverage.NumDecisions5 + S.MCDCCoverage.NumDecisions5
        NumDecisions6 := F.MCDCCoverage.NumDecisions6 + S.MCDCCoverage.NumDecisions6
        NumPairsAll := F.MCDCCoverage.NumPairsAll + S.MCDCCoverage.NumPairsAll
        NumDecisionsWithAtLeastTwoNonConstCond :=
          F.MCDCCoverage.NumDecisionsWithAtLeastTwoNonConstCond
            + S.MCDCCoverage.NumDecisionsWithAtLeastTwoNonConstCond } ∧
    (F.addFunction S).FunctionCoverage.NumFunctions = F.FunctionCoverage.NumFunctions + 1 ∧
    (F.addFunction S).FunctionCoverage.Executed =
      F.FunctionCoverage.Executed + (if S.ExecutionCount > 0 then 1 else 0) ∧
    (F.addFunction S).InstantiationCoverage = F.InstantiationCoverage ∧
    (F.addFunction S).Name = F.Name ∧
    (∀ (N : String) (S1 S2 : FunctionCoverageSummary),
      (((FileCoverageSummary.ofName N).addFunction { S1 with LineCoverage := ⟨4, 10⟩ }).addFunction
        { S2 with LineCoverage := ⟨6, 10⟩ }).LineCoverage = ⟨10, 20⟩) := by
  refine ⟨rfl, rfl, rfl, rfl, rfl, ?_, rfl, rfl, fun _ _ _ => rfl⟩
  simp only [FileCoverageSummary.addFunction, FunctionCoverageInfo.addFunction]
  by_cases h : S.ExecutionCount > 0 <;> simp [h]

/-! ## Branch summation -/

/-- C4: `sumBranches` adds to the running totals twice the number of
non-folded records, and to the covered count the number of non-folded records
whose true arm executed plus the number whose false arm executed. One
non-folded branch whose true arm alone executed gives (total 2, covered 1); a
folded branch changes nothing, whatever its counts. -/
theorem C4_sumBranches_counts (NumBranches CoveredBranches : Nat)
    (Branches : List CountedRegion) :
    sumBranches NumBranches CoveredBranches Branches =
      (NumBranches + 2 * Branches.countP (fun BR => !BR.Folded),
       CoveredBranches
        + Branches.countP (fun BR => !BR.Folded && decide (BR.ExecutionCount > 0))
        + Branches.countP (fun BR => !BR.Folded && decide (BR.FalseExecutionCount > 0))) ∧
    (∀ (BR : CountedRegion) (n : Nat),
      sumBranches 0 0
        [{ BR with Folded := false, ExecutionCount := n + 1, FalseExecutionCount := 0 }]
        = (2, 1)) ∧
    (∀ BR : CountedRegion,
      sumBranches NumBranches CoveredBranches [{ BR with Folded := true }]
        = (NumBranches, CoveredBranches)) := by
  exact ⟨sumBranches_eq_counts NumBranches CoveredBranches Branches,
    fun _ _ => by simp [sumBranches, sumBranchesStep], fun _ => rfl⟩

/-- C5: when the expansions of a function resolve to finite trees `Ts`, then
with more fuel than the trees are deep the branch summation returns, and the
branch coverage of `FunctionCoverageSummary::get(CM, Function)` is the sum of
the `sumBranches` contributions of the function's own branch list and of the
branch list of every node of the trees, each node once. The summary itself is
returned whenever the MC/DC part passes its assertions. -/
theorem C5_branch_coverage_sums_expansion_tree (CM : CoverageMapping)
    (Function : FunctionRecord) (Ts : List ExpansionTree)
    (fuel NumPairsAll NumDecisionsWithAtLeastTwoNonConstCond : Nat)
    (hResolves : ExpansionTree.ResolvesAll CM
      (CM.getCoverageForFunction Function).getExpansions Ts)
    (hFuel : ExpansionTree.depthAll Ts < fuel) :
    sumBranchExpansions CM fuel
        (sumBranches 0 0 (CM.getCoverageForFunction Function).getBranches)
        (CM.getCoverageForFunction Function).getExpansions
      = some (sumContributions
          ((CM.getCoverageForFunction Function).getBranches
            :: ExpansionTree.branchListsAll Ts)) ∧
    ∃ r, FunctionCoverageSummary.get fuel CM Function NumPairsAll
          NumDecisionsWithAtLeastTwoNonConstCond = some r ∧
      (∀ S, r = .ok S →
        S.BranchCoverage =
          ⟨(sumContributions ((CM.getCoverageForFunction Function).getBranches
              :: ExpansionTree.branchListsAll Ts)).2,
           (sumContributions ((CM.getCoverageForFunction Function).getBranches
              :: ExpansionTree.branchListsAll Ts)).1⟩) ∧
      (∀ M, sumMCDCPairs (CM.getCoverageForFunction Function).getMCDCRecords 0 0 0 0 0
          = .ok M → M.CoveredPairs ≤ M.NumPairs → ∃ S, r = .ok S) := by
  have h1 := sumBranchExpansions_resolved CM fuel Ts
    (CM.getCoverageForFunction Function).getExpansions
    (sumBranches 0 0 (CM.getCoverageForFunction Function).getBranches) hResolves hFuel
  rw [← sumContributions_cons] at h1
  refine ⟨h1, ?_⟩
  have hle := sumContributions_covered_le
    ((CM.getCoverageForFunction Function).getBranches :: ExpansionTree.branchListsAll Ts)
  have hreg := sumRegions_covered_le Function.CountedRegions (0, 0) (Nat.le_refl _)
  have hlin := sumLines_covered_le
    (CM.getCoverageForFunction Function).getLineCoverageStats (0, 0) (Nat.le_refl _)
  simp only [FunctionCoverageSummary.get, h1, Option.some.injEq, exists_eq_left',
    RegionCoverageInfo.create_region_ok hreg, LineCoverageInfo.create_line_ok hlin,
    BranchCoverageInfo.create_branch_ok hle]
  cases hM : sumMCDCPairs (CM.getCoverageForFunction Function).getMCDCRecords 0 0 0 0 0 with
  | error e =>
    constructor
    · intro S hS; cases hS
    · intro M hM2; cases hM2
  | ok M =>
    constructor
    · intro S hS
      by_cases hc : M.CoveredPairs ≤ M.NumPairs
      · simp [bind, Except.bind, pure, Except.pure, MCDCCoverageInfo.create, hc] at hS
        rw [← hS]
      · simp [bind, Except.bind, pure, Except.pure, MCDCCoverageInfo.create, hc] at hS
    · intro M2 hM2 hle2
      cases hM2
      simp [bind, Except.bind, pure, Except.pure, MCDCCoverageInfo.create, hle2]

/-- C5 at `exampleFunction` under `exampleCM`, whose expansions nest twice. -/
theorem C5_branch_coverage_sums_expansion_tree_witness :
    sumBranchExpansions exampleCM 3
        (sumBranches 0 0 (exampleCM.getCoverageForFunction exampleFunction).getBranches)
        (exampleCM.getCoverageForFunction exampleFunction).getExpansions
      = some (sumContributions
          ((exampleCM.getCoverageForFunction exampleFunction).getBranches
            :: ExpansionTree.branchListsAll exampleTrees)) ∧
    ∃ r, FunctionCoverageSummary.get 3 exampleCM exampleFunction 0 0 = some r ∧
      (∀ S, r = .ok S →
        S.BranchCoverage =
          ⟨(sumContributions ((exampleCM.getCoverageForFunction exampleFunction).getBranches
              :: ExpansionTree.branchListsAll exampleTrees)).2,
           (sumContributions ((exampleCM.getCoverageForFunction exampleFunction).getBranches
              :: ExpansionTree.branchListsAll exampleTrees)).1⟩) ∧
      (∀ M, sumMCDCPairs (exampleCM.getCoverageForFunction exampleFunction).getMCDCRecords
          0 0 0 0 0 = .ok M → M.CoveredPairs ≤ M.NumPairs → ∃ S, r = .ok S) :=
  C5_branch_coverage_sums_expansion_tree exampleCM exampleFunction exampleTrees 3 0 0
    (by simp [ExpansionTree.ResolvesAll, ExpansionTree.Resolves, exampleCM, exampleTrees])
    (by simp [ExpansionTree.depthAll, ExpansionTree.depth, exampleTrees])

/-! ## MC/DC pairs and the decision histogram -/

/-- C6 (the code at the failing input): for the single decision record
`foldedCoveredRecord` (two conditions, the first folded and reported covered)
the summation and the instance summary have one pair and one covered pair,
while the record has no condition that is both non-folded and covered: the
folded condition is counted as covered. -/
theorem C6_folded_condition_counted_as_covered :
    sumMCDCPairs [foldedCoveredRecord] 0 0 0 0 0 =
      .ok { NumPairs := 1, CoveredPairs := 1, NumDecisions := 1, NumDecisions2 := 1
            NumDecisions3 := 0, NumDecisions4 := 0, NumDecisions5 := 0, NumDecisions6 := 0 } ∧
    (FunctionCoverageSummary.get 1 foldedCoveredCM exampleFunction 0 0).map
      (fun r => r.map (fun S => (S.MCDCCoverage.CoveredPairs, S.MCDCCoverage.NumPairs)))
      = some (.ok (1, 1)) ∧
    foldedCoveredRecord.numNonFolded = 1 ∧
    foldedCoveredRecord.numNonFoldedCovered = 0 :=
  ⟨rfl, rfl, rfl, rfl⟩

/-- C7: when every decision record of a function has 2 to 6 conditions, the
MC/DC summation returns with `NumDecisions` the number of records and each
histogram counter `k` the number of records of exactly `k` conditions, the five
counters adding up to `NumDecisions`; the instance summary is returned when
the branch summation returns and the covered pairs do not exceed the pairs,
and a returned summary carries these counts. One decision of two and one of
three conditions give 2 decisions and counters 1, 1, 0, 0, 0. -/
theorem C7_decision_histogram (fuel : Nat) (CM : CoverageMapping)
    (Function : FunctionRecord) (NumPairsAll NumDecisionsWithAtLeastTwoNonConstCond : Nat)
    (hAll : ∀ R ∈ (CM.getCoverageForFunction Function).getMCDCRecords,
      2 ≤ R.getNumConditions ∧ R.getNumConditions ≤ 6) :
    (∃ M, sumMCDCPairs (CM.getCoverageForFunction Function).getMCDCRecords 0 0 0 0 0 = .ok M ∧
      M.NumDecisions = (CM.getCoverageForFunction Function).getMCDCRecords.length ∧
      M.NumDecisions2 = (CM.getCoverageForFunction Function).getMCDCRecords.countP
        (fun R => R.getNumConditions == 2) ∧
      M.NumDecisions3 = (CM.getCoverageForFunction Function).getMCDCRecords.countP
        (fun R => R.getNumConditions == 3) ∧
      M.NumDecisions4 = (CM.getCoverageForFunction Function).getMCDCRecords.countP
        (fun R => R.getNumConditions == 4) ∧
      M.NumDecisions5 = (CM.getCoverageForFunction Function).getMCDCRecords.countP
        (fun R => R.getNumConditions == 5) ∧
      M.NumDecisions6 = (CM.getCoverageForFunction Function).getMCDCRecords.countP
        (fun R => R.getNumConditions == 6) ∧
      M.NumDecisions2 + M.NumDecisions3 + M.NumDecisions4 + M.NumDecisions5 + M.NumDecisions6
        = M.NumDecisions ∧
      (∀ Br, sumBranchExpansions CM fuel
          (sumBranches 0 0 (CM.getCoverageForFunction Function).getBranches)
          (CM.getCoverageForFunction Function).getExpansions = some Br →
        M.CoveredPairs ≤ M.NumPairs →
        ∃ S, FunctionCoverageSummary.get fuel CM Function NumPairsAll
          NumDecisionsWithAtLeastTwoNonConstCond = some (.ok S))) ∧
    (∀ S, FunctionCoverageSummary.get fuel CM Function NumPairsAll
        NumDecisionsWithAtLeastTwoNonConstCond = some (.ok S) →
      S.MCDCCoverage.NumDecisions
        = (CM.getCoverageForFunction Function).getMCDCRecords.length ∧
      S.MCDCCoverage.NumDecisions2 = (CM.getCoverageForFunction Function).getMCDCRecords.countP
        (fun R => R.getNumConditions == 2) ∧
      S.MCDCCoverage.NumDecisions3 = (CM.getCoverageForFunction Function).getMCDCRecords.countP
        (fun R => R.getNumConditions == 3) ∧
      S.MCDCCoverage.NumDecisions4 = (CM.getCoverageForFunction Function).getMCDCRecords.countP
        (fun R => R.getNumConditions == 4) ∧
      S.MCDCCoverage.NumDecisions5 = (CM.getCoverageForFunction Function).getMCDCRecords.countP
        (fun R => R.getNumConditions == 5) ∧
      S.MCDCCoverage.NumDecisions6 = (CM.getCoverageForFunction Function).getMCDCRecords.countP
        (fun R => R.getNumConditions == 6) ∧
      S.MCDCCoverage.NumDecisions2 + S.MCDCCoverage.NumDecisions3
        + S.MCDCCoverage.NumDecisions4 + S.MCDCCoverage.NumDecisions5
        + S.MCDCCoverage.NumDecisions6 = S.MCDCCoverage.NumDecisions) ∧
    (∀ R1 R2 : MCDCRecord,
      (sumMCDCPairs [{ R1 with getNumConditions := 2 }, { R2 with getNumConditions := 3 }]
        0 0 0 0 0).map (fun M => (M.NumDecisions, M.NumDecisions2, M.NumDecisions3,
          M.NumDecisions4, M.NumDecisions5, M.NumDecisions6))
        = .ok (2, 1, 1, 0, 0, 0)) := by
  have hM := sumMCDCPairs_ok (CM.getCoverageForFunction Function).getMCDCRecords 0 0 0 0 0 hAll
  have hsum := countP_sizes_sum (CM.getCoverageForFunction Function).getMCDCRecords hAll
  refine ⟨⟨_, hM, rfl, ?_, ?_, ?_, ?_, ?_, ?_, ?_⟩, ?_, ?_⟩
  · simp
  · simp
  · simp
  · simp
  · simp
  · simpa using hsum
  · intro Br hB hle
    exact ⟨_, FunctionCoverageSummary.get_ok fuel CM Function NumPairsAll
      NumDecisionsWithAtLeastTwoNonConstCond Br _ hB hM hle⟩
  · intro S hS
    obtain ⟨Br, M, _, hM2, _, _, hS2⟩ := FunctionCoverageSummary.get_ok_inv fuel CM Function
      NumPairsAll NumDecisionsWithAtLeastTwoNonConstCond S hS
    rw [hM] at hM2
    cases hM2
    rw [hS2]
    refine ⟨rfl, ?_, ?_, ?_, ?_, ?_, ?_⟩
    · simp
    · simp
    · simp
    · simp
    · simp
    · simpa using hsum
  · intro R1 R2
    rw [sumMCDCPairs_ok _ 0 0 0 0 0 (by simp)]
    simp [Except.map]

/-- C7 at `exampleFunction` under `exampleCM`: a decision of two and a decision
of three conditions; the summary is returned and has 2 decisions, counted 1
and 1 in the histogram. -/
theorem C7_decision_histogram_witness :
    ∃ S, FunctionCoverageSummary.get 3 exampleCM exampleFunction 0 0 = some (.ok S) ∧
      S.MCDCCoverage.NumDecisions = 2 ∧ S.MCDCCoverage.NumDecisions2 = 1 ∧
      S.MCDCCoverage.NumDecisions3 = 1 ∧
      S.MCDCCoverage.NumDecisions2 + S.MCDCCoverage.NumDecisions3
        + S.MCDCCoverage.NumDecisions4 + S.MCDCCoverage.NumDecisions5
        + S.MCDCCoverage.NumDecisions6 = S.MCDCCoverage.NumDecisions := by
  have h := C7_decision_histogram 3 exampleCM exampleFunction 0 0 (by simp [exampleCM])
  obtain ⟨_, hS, _⟩ := h
  refine ⟨_, rfl, ?_⟩
  obtain ⟨h1, h2, h3, _, _, _, h7⟩ := hS _ rfl
  exact ⟨h1, h2, h3, h7⟩

/-! ## Algebraic laws of `merge` and `operator+=` -/

/-- C8: merging an accumulator with itself leaves every field unchanged, for
the region, line, branch and MC/DC accumulators; the MC/DC self-merge reports
no inconsistency. -/
theorem C8_merge_idempotent (R : RegionCoverageInfo) (L : LineCoverageInfo)
    (B : BranchCoverageInfo) (M : MCDCCoverageInfo) :
    R.merge R = R ∧ L.merge L = L ∧ B.merge B = B ∧
    (M.merge M).1 = M ∧ (M.merge M).2 = false := by
  refine ⟨?_, ?_, ?_, ?_, ?_⟩
  · simp [RegionCoverageInfo.merge]
  · simp [LineCoverageInfo.merge]
  · simp [BranchCoverageInfo.merge]
  · simp [MCDCCoverageInfo.merge, MCDCCoverageInfo.mergeFields]
  · simp [MCDCCoverageInfo.merge, MCDCCoverageInfo.mergeSomethingWrong]

/-- C9: `operator+=` and `merge` are commutative and associative on the fields
of the region, line, branch and MC/DC accumulators, and `operator+=` is so on
`FunctionCoverageInfo`. -/
theorem C9_add_merge_comm_assoc :
    (∀ A B C : RegionCoverageInfo,
      A.add B = B.add A ∧ (A.add B).add C = A.add (B.add C) ∧
      A.merge B = B.merge A ∧ (A.merge B).merge C = A.merge (B.merge C)) ∧
    (∀ A B C : LineCoverageInfo,
      A.add B = B.add A ∧ (A.add B).add C = A.add (B.add C) ∧
      A.merge B = B.merge A ∧ (A.merge B).merge C = A.merge (B.merge C)) ∧
    (∀ A B C : BranchCoverageInfo,
      A.add B = B.add A ∧ (A.add B).add C = A.add (B.add C) ∧
      A.merge B = B.merge A ∧ (A.merge B).merge C = A.merge (B.merge C)) ∧
    (∀ A B C : MCDCCoverageInfo,
      A.add B = B.add A ∧ (A.add B).add C = A.add (B.add C) ∧
      (A.merge B).1 = (B.merge A).1 ∧
      ((A.merge B).1.merge C).1 = (A.merge (B.merge C).1).1) ∧
    (∀ A B C : FunctionCoverageInfo,
      A.add B = B.add A ∧ (A.add B).add C = A.add (B.add C)) := by
  refine ⟨fun A B C => ⟨?_, ?_, ?_, ?_⟩, fun A B C => ⟨?_, ?_, ?_, ?_⟩,
    fun A B C => ⟨?_, ?_, ?_, ?_⟩, fun A B C => ⟨?_, ?_, ?_, ?_⟩, fun A B C => ⟨?_, ?_⟩⟩
  all_goals
    simp only [RegionCoverageInfo.add, RegionCoverageInfo.merge, LineCoverageInfo.add,
      LineCoverageInfo.merge, BranchCoverageInfo.add, BranchCoverageInfo.merge,
      MCDCCoverageInfo.add, MCDCCoverageInfo.merge, MCDCCoverageInfo.mergeFields,
      FunctionCoverageInfo.add, RegionCoverageInfo.mk.injEq, LineCoverageInfo.mk.injEq,
      BranchCoverageInfo.mk.injEq, MCDCCoverageInfo.mk.injEq, FunctionCoverageInfo.mk.injEq]
    refine ⟨?_, ?_⟩ <;> (try refine ⟨?_, ?_, ?_, ?_, ?_, ?_, ?_, ?_, ?_⟩) <;> omega

/-! ## Order independence of the group fold -/

/-- C10: for an instantiation group and two non-empty lists of instance
summaries that are permutations of each other, the group summaries are both
returned and have the same region, line, branch and MC/DC accumulators. -/
theorem C10_group_summary_order_independent (Group : InstantiationGroup)
    (Summaries Permuted : List FunctionCoverageSummary) (SomethingWrong : Bool)
    (hPerm : Summaries.Perm Permuted) (hNonEmpty : Summaries ≠ []) :
    ∃ R1 R2, FunctionCoverageSummary.getGroup Group Summaries SomethingWrong = some R1 ∧
      FunctionCoverageSummary.getGroup Group Permuted SomethingWrong = some R2 ∧
      R1.1.RegionCoverage = R2.1.RegionCoverage ∧
      R1.1.LineCoverage = R2.1.LineCoverage ∧
      R1.1.BranchCoverage = R2.1.BranchCoverage ∧
      R1.1.MCDCCoverage = R2.1.MCDCCoverage := by
  cases Summaries with
  | nil => exact absurd rfl hNonEmpty
  | cons F1 Rest1 =>
    cases Permuted with
    | nil => exact absurd hPerm.length_eq (by simp)
    | cons F2 Rest2 =>
      obtain ⟨R1, h1⟩ : ∃ R, FunctionCoverageSummary.getGroup Group (F1 :: Rest1)
          SomethingWrong = some R := ⟨_, rfl⟩
      obtain ⟨R2, h2⟩ : ∃ R, FunctionCoverageSummary.getGroup Group (F2 :: Rest2)
          SomethingWrong = some R := ⟨_, rfl⟩
      have key : ∀ g : FunctionCoverageSummary → Nat,
          (∀ s x, g (FunctionCoverageSummary.mergeInstance s x).1 = max (g s.1) (g x)) →
          (∀ (N : String) (E : Nat) (F : FunctionCoverageSummary),
            g { F with Name := N, ExecutionCount := E } = g F) →
          g R1.1 = g R2.1 := fun g hs hi =>
        isMaxOver_unique hPerm (getGroup_field_max h1 g hs hi) (getGroup_field_max h2 g hs hi)
      refine ⟨R1, R2, h1, h2, ?_, ?_, ?_, ?_⟩
      · ext
        · exact key (fun s => s.RegionCoverage.Covered) (fun _ _ => rfl) (fun _ _ _ => rfl)
        · exact key (fun s => s.RegionCoverage.NumRegions) (fun _ _ => rfl) (fun _ _ _ => rfl)
      · ext
        · exact key (fun s => s.LineCoverage.Covered) (fun _ _ => rfl) (fun _ _ _ => rfl)
        · exact key (fun s => s.LineCoverage.NumLines) (fun _ _ => rfl) (fun _ _ _ => rfl)
      · ext
        · exact key (fun s => s.BranchCoverage.Covered) (fun _ _ => rfl) (fun _ _ _ => rfl)
        · exact key (fun s => s.BranchCoverage.NumBranches) (fun _ _ => rfl) (fun _ _ _ => rfl)
      · ext
        · exact key (fun s => s.MCDCCoverage.CoveredPairs) (fun _ _ => rfl) (fun _ _ _ => rfl)
        · exact key (fun s => s.MCDCCoverage.NumPairs) (fun _ _ => rfl) (fun _ _ _ => rfl)
        · exact key (fun s => s.MCDCCoverage.NumDecisions) (fun _ _ => rfl) (fun _ _ _ => rfl)
        · exact key (fun s => s.MCDCCoverage.NumDecisions2) (fun _ _ => rfl) (fun _ _ _ => rfl)
        · exact key (fun s => s.MCDCCoverage.NumDecisions3) (fun _ _ => rfl) (fun _ _ _ => rfl)
        · exact key (fun s => s.MCDCCoverage.NumDecisions4) (fun _ _ => rfl) (fun _ _ _ => rfl)
        · exact key (fun s => s.MCDCCoverage.NumDecisions5) (fun _ _ => rfl) (fun _ _ _ => rfl)
        · exact key (fun s => s.MCDCCoverage.NumDecisions6) (fun _ _ => rfl) (fun _ _ _ => rfl)
        · exact key (fun s => s.MCDCCoverage.NumPairsAll) (fun _ _ => rfl) (fun _ _ _ => rfl)
        · exact key (fun s => s.MCDCCoverage.NumDecisionsWithAtLeastTwoNonConstCond)
            (fun _ _ => rfl) (fun _ _ _ => rfl)

/-- C10 at three example instances, taken in the orders A, B, C and C, A, B. -/
theorem C10_group_summary_order_independent_witness :
    ∃ R1 R2,
      FunctionCoverageSummary.getGroup exampleGroup
        [exampleSummaryA, exampleSummaryB, exampleSummaryC] false = some R1 ∧
      FunctionCoverageSummary.getGroup exampleGroup
        [exampleSummaryC, exampleSummaryA, exampleSummaryB] false = some R2 ∧
      R1.1.RegionCoverage = R2.1.RegionCoverage ∧
      R1.1.LineCoverage = R2.1.LineCoverage ∧
      R1.1.BranchCoverage = R2.1.BranchCoverage ∧
      R1.1.MCDCCoverage = R2.1.MCDCCoverage :=
  C10_group_summary_order_independent exampleGroup
    [exampleSummaryA, exampleSummaryB, exampleSummaryC]
    [exampleSummaryC, exampleSummaryA, exampleSummaryB] false
    (show ([exampleSummaryA, exampleSummaryB] ++ [exampleSummaryC]).Perm
        ([exampleSummaryC] ++ [exampleSummaryA, exampleSummaryB]) from List.perm_append_comm)
    (by simp)

/-! ## Percentages -/

theorem percent_nonneg_le (c t : Nat) (h : c ≤ t) (ht : t ≠ 0) :
    (0 : ℚ) ≤ (c : ℚ) / (t : ℚ) * 100 ∧ (c : ℚ) / (t : ℚ) * 100 ≤ 100 := by
  have htq : (0 : ℚ) < (t : ℚ) := by exact_mod_cast Nat.pos_of_ne_zero ht
  have hcq : (c : ℚ) ≤ (t : ℚ) := by exact_mod_cast h
  have hc0 : (0 : ℚ) ≤ (c : ℚ) := by exact_mod_cast Nat.zero_le c
  have h1 : (c : ℚ) / (t : ℚ) ≤ 1 := (div_le_one htq).mpr hcq
  have h0 : (0 : ℚ) ≤ (c : ℚ) / (t : ℚ) := div_nonneg hc0 (le_of_lt htq)
  constructor
  · positivity
  · linarith

theorem percent_eq_hundred_iff (c t : Nat) (ht : t ≠ 0) :
    (c : ℚ) / (t : ℚ) * 100 = 100 ↔ c = t := by
  have htq : (t : ℚ) ≠ 0 := by exact_mod_cast ht
  constructor
  · intro h
    have h1 : (c : ℚ) / (t : ℚ) = 1 := by linarith
    have h2 : (c : ℚ) = (t : ℚ) := by
      have := (div_eq_one_iff_eq htq).mp h1
      exact this
    exact_mod_cast h2
  · intro h
    subst h
    rw [div_self htq]
    norm_num

theorem percent_facts (c t : Nat) (h : c ≤ t) (x : Except String ℚ)
    (hx : x = .ok (if t = 0 then 0 else (c : ℚ) / (t : ℚ) * 100)) :
    (t = 0 → x = .ok 0) ∧ (t ≠ 0 → x = .ok ((c : ℚ) / (t : ℚ) * 100)) ∧
      ∃ p, x = .ok p ∧ 0 ≤ p ∧ p ≤ 100 := by
  subst hx
  refine ⟨fun h0 => by rw [if_pos h0], fun h0 => by rw [if_neg h0], ?_⟩
  by_cases h0 : t = 0
  · exact ⟨0, by rw [if_pos h0], le_refl _, by norm_num⟩
  · exact ⟨_, by rw [if_neg h0], percent_nonneg_le c t h h0⟩

theorem getPercentCovered_region_eq (R : RegionCoverageInfo) (h : R.Covered ≤ R.NumRegions) :
    R.getPercentCovered =
      .ok (if R.NumRegions = 0 then 0 else (R.Covered : ℚ) / (R.NumRegions : ℚ) * 100) := by
  unfold RegionCoverageInfo.getPercentCovered
  rw [if_pos h]
  by_cases h0 : R.NumRegions = 0 <;> simp [h0]

theorem getPercentCovered_line_eq (L : LineCoverageInfo) (h : L.Covered ≤ L.NumLines) :
    L.getPercentCovered =
      .ok (if L.NumLines = 0 then 0 else (L.Covered : ℚ) / (L.NumLines : ℚ) * 100) := by
  unfold LineCoverageInfo.getPercentCovered
  rw [if_pos h]
  by_cases h0 : L.NumLines = 0 <;> simp [h0]

theorem getPercentCovered_branch_eq (B : BranchCoverageInfo) (h : B.Covered ≤ B.NumBranches) :
    B.getPercentCovered =
      .ok (if B.NumBranches = 0 then 0 else (B.Covered : ℚ) / (B.NumBranches : ℚ) * 100) := by
  unfold BranchCoverageInfo.getPercentCovered
  rw [if_pos h]
  by_cases h0 : B.NumBranches = 0 <;> simp [h0]

theorem getPercentCovered_mcdc_eq (M : MCDCCoverageInfo) (h : M.CoveredPairs ≤ M.NumPairs) :
    M.getPercentCovered =
      .ok (if M.NumPairs = 0 then 0 else (M.CoveredPairs : ℚ) / (M.NumPairs : ℚ) * 100) := by
  unfold MCDCCoverageInfo.getPercentCovered
  rw [if_pos h]
  by_cases h0 : M.NumPairs = 0 <;> simp [h0]

theorem getPercentCovered_function_eq (F : FunctionCoverageInfo)
    (h : F.Executed ≤ F.NumFunctions) :
    F.getPercentCovered =
      .ok (if F.NumFunctions = 0 then 0
        else (F.Executed : ℚ) / (F.NumFunctions : ℚ) * 100) := by
  unfold FunctionCoverageInfo.getPercentCovered
  rw [if_pos h]
  by_cases h0 : F.NumFunctions = 0 <;> simp [h0]

/-- C11: for each of the region, line, branch, MC/DC and function
accumulators with covered ≤ total, `getPercentCovered` (over exact rationals)
returns 0 when the total is 0 and `covered / total * 100` otherwise, and the
value it returns lies between 0 and 100; the quotient is only taken when the
total is nonzero. -/
theorem C11_getPercentCovered_value_and_bounds (R : RegionCoverageInfo)
    (L : LineCoverageInfo) (B : BranchCoverageInfo) (M : MCDCCoverageInfo)
    (F : FunctionCoverageInfo)
    (hR : R.Covered ≤ R.NumRegions) (hL : L.Covered ≤ L.NumLines)
    (hB : B.Covered ≤ B.NumBranches) (hM : M.CoveredPairs ≤ M.NumPairs)
    (hF : F.Executed ≤ F.NumFunctions) :
    ((R.NumRegions = 0 → R.getPercentCovered = .ok 0) ∧
     (R.NumRegions ≠ 0 →
        R.getPercentCovered = .ok ((R.Covered : ℚ) / (R.NumRegions : ℚ) * 100)) ∧
     ∃ p, R.getPercentCovered = .ok p ∧ 0 ≤ p ∧ p ≤ 100) ∧
    ((L.NumLines = 0 → L.getPercentCovered = .ok 0) ∧
     (L.NumLines ≠ 0 →
        L.getPercentCovered = .ok ((L.Covered : ℚ) / (L.NumLines : ℚ) * 100)) ∧
     ∃ p, L.getPercentCovered = .ok p ∧ 0 ≤ p ∧ p ≤ 100) ∧
    ((B.NumBranches = 0 → B.getPercentCovered = .ok 0) ∧
     (B.NumBranches ≠ 0 →
        B.getPercentCovered = .ok ((B.Covered : ℚ) / (B.NumBranches : ℚ) * 100)) ∧
     ∃ p, B.getPercentCovered = .ok p ∧ 0 ≤ p ∧ p ≤ 100) ∧
    ((M.NumPairs = 0 → M.getPercentCovered = .ok 0) ∧
     (M.NumPairs ≠ 0 →
        M.getPercentCovered = .ok ((M.CoveredPairs : ℚ) / (M.NumPairs : ℚ) * 100)) ∧
     ∃ p, M.getPercentCovered = .ok p ∧ 0 ≤ p ∧ p ≤ 100) ∧
    ((F.NumFunctions = 0 → F.getPercentCovered = .ok 0) ∧
     (F.NumFunctions ≠ 0 →
        F.getPercentCovered = .ok ((F.Executed : ℚ) / (F.NumFunctions : ℚ) * 100)) ∧
     ∃ p, F.getPercentCovered = .ok p ∧ 0 ≤ p ∧ p ≤ 100) := by
  exact ⟨percent_facts _ _ hR _ (getPercentCovered_region_eq R hR),
    percent_facts _ _ hL _ (getPercentCovered_line_eq L hL),
    percent_facts _ _ hB _ (getPercentCovered_branch_eq B hB),
    percent_facts _ _ hM _ (getPercentCovered_mcdc_eq M hM),
    percent_facts _ _ hF _ (getPercentCovered_function_eq F hF)⟩

/-- C11 at the accumulators (1,2), (0,0), (3,4), 2 of 4 pairs, and (5,5):
the percentages are 50, 0, 75, 50 and 100. -/
theorem C11_getPercentCovered_value_and_bounds_witness :
    RegionCoverageInfo.getPercentCovered ⟨1, 2⟩ = .ok 50 ∧
    LineCoverageInfo.getPercentCovered ⟨0, 0⟩ = .ok 0 ∧
    BranchCoverageInfo.getPercentCovered ⟨3, 4⟩ = .ok 75 ∧
    MCDCCoverageInfo.getPercentCovered ⟨2, 4, 1, 0, 0, 1, 0, 0, 4, 1⟩ = .ok 50 ∧
    FunctionCoverageInfo.getPercentCovered ⟨5, 5⟩ = .ok 100 := by
  obtain ⟨⟨_, hR, _⟩, ⟨hL, _, _⟩, ⟨_, hB, _⟩, ⟨_, hM, _⟩, ⟨_, hF, _⟩⟩ :=
    C11_getPercentCovered_value_and_bounds ⟨1, 2⟩ ⟨0, 0⟩ ⟨3, 4⟩
      ⟨2, 4, 1, 0, 0, 1, 0, 0, 4, 1⟩ ⟨5, 5⟩
      (by decide) (by decide) (by decide) (by decide) (by decide)
  refine ⟨?_, hL rfl, ?_, ?_, ?_⟩
  · rw [hR (by decide)]; norm_num
  · rw [hB (by decide)]; norm_num
  · rw [hM (by decide)]; norm_num
  · rw [hF (by decide)]; norm_num

theorem percent_full_iff (c t : Nat) (ht : 0 < t) (x : Except String ℚ)
    (hx : x = .ok (if t = 0 then 0 else (c : ℚ) / (t : ℚ) * 100)) :
    (c == t) = true ↔ x = .ok 100 := by
  subst hx
  have h0 : t ≠ 0 := Nat.pos_iff_ne_zero.mp ht
  rw [if_neg h0, beq_iff_eq, Except.ok.injEq]
  exact (percent_eq_hundred_iff c t h0).symm

/-! ## Percentages in binary64 arithmetic -/

theorem roundHalfEven_intCast (i : ℤ) : roundHalfEven (i : ℚ) = i := by
  unfold roundHalfEven
  rw [Int.floor_intCast, sub_self, if_pos (by norm_num)]

theorem floor_le_roundHalfEven (x : ℚ) : ⌊x⌋ ≤ roundHalfEven x := by
  unfold roundHalfEven
  split
  · exact le_refl _
  · split
    · omega
    · split <;> omega

theorem roundHalfEven_le_floor_add_one (x : ℚ) : roundHalfEven x ≤ ⌊x⌋ + 1 := by
  unfold roundHalfEven
  split
  · omega
  · split
    · exact le_refl _
    · split <;> omega

theorem roundHalfEven_le_of_lt_half (x : ℚ) (m : ℤ) (h : x < (m : ℚ) + 1 / 2) :
    roundHalfEven x ≤ m := by
  have hf : (⌊x⌋ : ℚ) ≤ x := Int.floor_le x
  have hfm : ⌊x⌋ ≤ m := by
    have : (⌊x⌋ : ℚ) < (m : ℚ) + 1 := by linarith
    have : (⌊x⌋ : ℚ) < ((m + 1 : ℤ) : ℚ) := by push_cast; exact this
    have := Int.cast_lt.mp this
    omega
  unfold roundHalfEven
  by_cases h1 : x - ⌊x⌋ < 1 / 2
  · rw [if_pos h1]; exact hfm
  · have hlt : ⌊x⌋ < m := by
      have h2 : (⌊x⌋ : ℚ) < (m : ℚ) := by linarith [not_lt.mp h1]
      exact Int.cast_lt.mp h2
    rw [if_neg h1]
    split
    · omega
    · split <;> omega

theorem log_bracket (x : ℚ) (hx : 0 < x) :
    (2 : ℚ) ^ (52 : ℤ) ≤ x / 2 ^ (Int.log 2 x - 52) ∧
      x / 2 ^ (Int.log 2 x - 52) < (2 : ℚ) ^ (53 : ℤ) := by
  have h1 := Int.zpow_log_le_self (by norm_num : 1 < 2) hx
  have h2 := Int.lt_zpow_succ_log_self (by norm_num : 1 < 2) x
  simp only [Nat.cast_ofNat] at h1 h2
  have hpos : (0 : ℚ) < 2 ^ (Int.log 2 x - 52) := by positivity
  constructor
  · rw [le_div_iff₀ hpos, ← zpow_add₀ (by norm_num : (2 : ℚ) ≠ 0)]
    have : (52 : ℤ) + (Int.log 2 x - 52) = Int.log 2 x := by ring
    rw [this]; exact h1
  · rw [div_lt_iff₀ hpos, ← zpow_add₀ (by norm_num : (2 : ℚ) ≠ 0)]
    have : (53 : ℤ) + (Int.log 2 x - 52) = Int.log 2 x + 1 := by ring
    rw [this]; exact h2

theorem roundDouble_pos (x : ℚ) (hx : 0 < x) : 0 < roundDouble x := by
  unfold roundDouble
  rw [if_neg (not_le.mpr hx)]
  have hb := (log_bracket x hx).1
  have hfl : (2 : ℤ) ^ 52 ≤ ⌊x / 2 ^ (Int.log 2 x - 52)⌋ := by
    apply Int.le_floor.mpr
    push_cast
    exact_mod_cast hb
  have hr := floor_le_roundHalfEven (x / 2 ^ (Int.log 2 x - 52))
  have hpos : (0 : ℤ) < roundHalfEven (x / 2 ^ (Int.log 2 x - 52)) := by
    have : (0 : ℤ) < 2 ^ 52 := by norm_num
    omega
  have hq : (0 : ℚ) < (roundHalfEven (x / 2 ^ (Int.log 2 x - 52)) : ℚ) := by exact_mod_cast hpos
  positivity

/-- A positive rational below the midpoint between the binary64 number
`m * 2^k` (with `2^52 ≤ m < 2^53`) and its successor rounds to at most
`m * 2^k`. -/
theorem roundDouble_le_of_lt_mid (x : ℚ) (m k : ℤ) (hx : 0 < x)
    (hm1 : (2 : ℤ) ^ 52 ≤ m) (hm2 : m < (2 : ℤ) ^ 53)
    (h : x < ((m : ℚ) + 1 / 2) * 2 ^ k) :
    roundDouble x ≤ (m : ℚ) * 2 ^ k := by
  have h2k : (0 : ℚ) < 2 ^ k := by positivity
  have hm2q : (m : ℚ) + 1 ≤ (2 : ℚ) ^ (53 : ℤ) := by
    have : m + 1 ≤ (2 : ℤ) ^ 53 := by omega
    exact_mod_cast this
  have hm1q : (2 : ℚ) ^ (52 : ℤ) ≤ (m : ℚ) := by exact_mod_cast hm1
  -- the exponent of `x` is at most `k`
  have hxlt : x < (2 : ℚ) ^ (k + 53) := by
    rw [zpow_add₀ (by norm_num : (2 : ℚ) ≠ 0), mul_comm]
    calc x < ((m : ℚ) + 1 / 2) * 2 ^ k := h
      _ ≤ (2 : ℚ) ^ (53 : ℤ) * 2 ^ k := by
        apply mul_le_mul_of_nonneg_right _ (le_of_lt h2k)
        linarith
  have hlog : Int.log 2 x < k + 53 := by
    have := (Int.lt_zpow_iff_log_lt (by norm_num : 1 < 2) hx).mp
      (by simpa only [Nat.cast_ofNat] using hxlt : x < ((2 : ℕ) : ℚ) ^ (k + 53))
    exact this
  have hb := log_bracket x hx
  unfold roundDouble
  rw [if_neg (not_le.mpr hx)]
  have hpe : (0 : ℚ) < 2 ^ (Int.log 2 x - 52) := by positivity
  rcases eq_or_lt_of_le (show Int.log 2 x - 52 ≤ k by omega) with he | he
  · rw [he]
    have hz : x / 2 ^ k < (m : ℚ) + 1 / 2 := by
      rw [div_lt_iff₀ h2k]; exact h
    have hr := roundHalfEven_le_of_lt_half _ m hz
    have hrq : (roundHalfEven (x / 2 ^ k) : ℚ) ≤ (m : ℚ) := by exact_mod_cast hr
    exact mul_le_mul_of_nonneg_right hrq (le_of_lt h2k)
  · have hfl : ⌊x / 2 ^ (Int.log 2 x - 52)⌋ < (2 : ℤ) ^ 53 := by
      apply Int.floor_lt.mpr
      push_cast
      exact_mod_cast hb.2
    have hr := roundHalfEven_le_floor_add_one (x / 2 ^ (Int.log 2 x - 52))
    have hr2 : roundHalfEven (x / 2 ^ (Int.log 2 x - 52)) ≤ (2 : ℤ) ^ 53 := by omega
    have hrq : (roundHalfEven (x / 2 ^ (Int.log 2 x - 52)) : ℚ) ≤ (2 : ℚ) ^ (53 : ℤ) := by
      exact_mod_cast hr2
    calc (roundHalfEven (x / 2 ^ (Int.log 2 x - 52)) : ℚ) * 2 ^ (Int.log 2 x - 52)
        ≤ (2 : ℚ) ^ (53 : ℤ) * 2 ^ (Int.log 2 x - 52) :=
          mul_le_mul_of_nonneg_right hrq (le_of_lt hpe)
      _ = (2 : ℚ) ^ (Int.log 2 x + 1) := by
          rw [← zpow_add₀ (by norm_num : (2 : ℚ) ≠ 0)]
          congr 1; ring
      _ ≤ (2 : ℚ) ^ (k + 52) := by
          apply zpow_le_zpow_right₀ (by norm_num)
          omega
      _ = (2 : ℚ) ^ (52 : ℤ) * 2 ^ k := by
          rw [← zpow_add₀ (by norm_num : (2 : ℚ) ≠ 0)]
          congr 1; ring
      _ ≤ (m : ℚ) * 2 ^ k := mul_le_mul_of_nonneg_right hm1q (le_of_lt h2k)

/-- A natural number up to `2^53` is a binary64 number: converting it is exact. -/
theorem roundDouble_natCast (n : ℕ) (h : n ≤ 2 ^ 53) : roundDouble (n : ℚ) = n := by
  rcases Nat.eq_zero_or_pos n with rfl | hpos
  · simp [roundDouble]
  have hq : (0 : ℚ) < (n : ℚ) := by exact_mod_cast hpos
  unfold roundDouble
  rw [if_neg (not_le.mpr hq), Int.log_natCast]
  rcases eq_or_lt_of_le h with h53 | hlt
  · subst h53
    rw [Nat.log_pow (by norm_num : 1 < 2)]
    have hz : (((2 ^ 53 : ℕ) : ℚ)) / 2 ^ (((53 : ℕ) : ℤ) - 52) = (((2 : ℤ) ^ 52 : ℤ) : ℚ) := by
      norm_num
    rw [hz, roundHalfEven_intCast]
    norm_num
  · have hL : Nat.log 2 n < 53 := Nat.log_lt_of_lt_pow (Nat.pos_iff_ne_zero.mp hpos) hlt
    obtain ⟨j, hj⟩ : ∃ j : ℕ, Nat.log 2 n + j = 52 := ⟨52 - Nat.log 2 n, by omega⟩
    have he : ((Nat.log 2 n : ℕ) : ℤ) - 52 = -(j : ℤ) := by omega
    rw [he]
    have hz : (n : ℚ) / 2 ^ (-(j : ℤ)) = (((n * 2 ^ j : ℕ) : ℤ) : ℚ) := by
      rw [zpow_neg, zpow_natCast]
      push_cast
      field_simp
    rw [hz, roundHalfEven_intCast, zpow_neg, zpow_natCast]
    push_cast
    field_simp

theorem roundDouble_zero : roundDouble 0 = 0 := by
  simp [roundDouble]

/-- Converting `2^53 + 1` to binary64 is a tie, which goes to the even
neighbour `2^53`. -/
theorem roundDouble_two_pow_53_add_one : roundDouble ((2 ^ 53 + 1 : ℕ) : ℚ) = 2 ^ 53 := by
  have hq : (0 : ℚ) < ((2 ^ 53 + 1 : ℕ) : ℚ) := by positivity
  have hlog : Nat.log 2 (2 ^ 53 + 1) = 53 :=
    Nat.log_eq_of_pow_le_of_lt_pow (by norm_num) (by norm_num)
  unfold roundDouble
  rw [if_neg (not_le.mpr hq), Int.log_natCast, hlog]
  have hz : ((2 ^ 53 + 1 : ℕ) : ℚ) / 2 ^ (((53 : ℕ) : ℤ) - 52)
      = (((2 : ℤ) ^ 52 : ℤ) : ℚ) + 1 / 2 := by
    norm_num
  have hfloor : ⌊(((2 : ℤ) ^ 52 : ℤ) : ℚ) + 1 / 2⌋ = (2 : ℤ) ^ 52 := by
    rw [Int.floor_eq_iff]
    constructor <;> norm_num
  have hr : roundHalfEven ((((2 : ℤ) ^ 52 : ℤ) : ℚ) + 1 / 2) = (2 : ℤ) ^ 52 := by
    unfold roundHalfEven
    rw [hfloor]
    rw [if_neg (by norm_num), if_neg (by norm_num), if_pos (by norm_num)]
  rw [hz, hr]
  norm_num

theorem percentDouble_self (n : ℕ) (h : 0 < n) : percentDouble n n = 100 := by
  unfold percentDouble
  have hq : (0 : ℚ) < (n : ℚ) := by exact_mod_cast h
  have hpos := roundDouble_pos (n : ℚ) hq
  rw [div_self (ne_of_gt hpos)]
  have h1 : roundDouble 1 = 1 := by
    have := roundDouble_natCast 1 (by norm_num)
    simpa using this
  have h100 : roundDouble 100 = 100 := by
    have := roundDouble_natCast 100 (by norm_num)
    simpa using this
  rw [h1, one_mul, h100]

theorem percentDouble_lt_hundred (c t : ℕ) (hct : c < t) (ht : t ≤ 2 ^ 53) :
    percentDouble c t < 100 := by
  unfold percentDouble
  have hc : c ≤ 2 ^ 53 := by omega
  rw [roundDouble_natCast c hc, roundDouble_natCast t ht]
  have htq : (0 : ℚ) < (t : ℚ) := by
    have : 0 < t := by omega
    exact_mod_cast this
  rcases Nat.eq_zero_or_pos c with rfl | hcpos
  · simp [roundDouble_zero]
  have hcq : (0 : ℚ) < (c : ℚ) := by exact_mod_cast hcpos
  have hx : (0 : ℚ) < (c : ℚ) / (t : ℚ) := div_pos hcq htq
  -- the quotient is at most `1 - 2^-53`
  have hxle : (c : ℚ) / (t : ℚ) ≤ 1 - 1 / 2 ^ 53 := by
    rw [div_le_iff₀ htq]
    have h1 : (c : ℚ) + 1 ≤ (t : ℚ) := by exact_mod_cast hct
    have h2 : (t : ℚ) ≤ 2 ^ 53 := by exact_mod_cast ht
    have h3 : (1 - 1 / 2 ^ 53 : ℚ) * (t : ℚ) = (t : ℚ) - (t : ℚ) / 2 ^ 53 := by ring
    have h4 : (t : ℚ) / 2 ^ 53 ≤ 1 := by
      rw [div_le_one (by positivity)]; exact h2
    linarith
  have hq := roundDouble_le_of_lt_mid ((c : ℚ) / (t : ℚ)) (2 ^ 53 - 1) (-53) hx
    (by norm_num) (by norm_num) (by
      have : (((2 ^ 53 - 1 : ℤ) : ℚ) + 1 / 2) * 2 ^ (-53 : ℤ) = 1 - 1 / 2 ^ 54 := by
        norm_num
      rw [this]
      have : (1 - 1 / 2 ^ 53 : ℚ) < 1 - 1 / 2 ^ 54 := by norm_num
      linarith)
  have hqv : (((2 ^ 53 - 1 : ℤ) : ℚ)) * 2 ^ (-53 : ℤ) = 1 - 1 / 2 ^ 53 := by norm_num
  rw [hqv] at hq
  by_cases hy : roundDouble ((c : ℚ) / (t : ℚ)) * 100 ≤ 0
  · unfold roundDouble at hy ⊢
    rw [if_pos hy]
    norm_num
  · have hy0 : 0 < roundDouble ((c : ℚ) / (t : ℚ)) * 100 := not_le.mp hy
    have hr := roundDouble_le_of_lt_mid (roundDouble ((c : ℚ) / (t : ℚ)) * 100)
      (100 * 2 ^ 46 - 1) (-46) hy0 (by norm_num) (by norm_num) (by
        have : (((100 * 2 ^ 46 - 1 : ℤ) : ℚ) + 1 / 2) * 2 ^ (-46 : ℤ) = 100 - 1 / 2 ^ 47 := by
          norm_num
        rw [this]
        have : (1 - 1 / 2 ^ 53 : ℚ) * 100 < 100 - 1 / 2 ^ 47 := by norm_num
        linarith)
    have hrv : (((100 * 2 ^ 46 - 1 : ℤ) : ℚ)) * 2 ^ (-46 : ℤ) = 100 - 1 / 2 ^ 46 := by
      norm_num
    rw [hrv] at hr
    have : (100 - 1 / 2 ^ 46 : ℚ) < 100 := by norm_num
    linarith

theorem percentDouble_two_pow_53 : percentDouble (2 ^ 53) (2 ^ 53 + 1) = 100 := by
  unfold percentDouble
  rw [roundDouble_natCast (2 ^ 53) (le_refl _), roundDouble_two_pow_53_add_one]
  have h1 : roundDouble 1 = 1 := by
    have := roundDouble_natCast 1 (by norm_num)
    simpa using this
  have h100 : roundDouble 100 = 100 := by
    have := roundDouble_natCast 100 (by norm_num)
    simpa using this
  have : (((2 ^ 53 : ℕ) : ℚ)) / 2 ^ 53 = 1 := by norm_num
  rw [this, h1, one_mul, h100]

theorem percentDouble_full_iff (c t : Nat) (ht : 0 < t) (hct : c ≤ t) (h53 : t ≤ 2 ^ 53) :
    (c == t) = true ↔ percentDouble c t = 100 := by
  rw [beq_iff_eq]
  constructor
  · intro h
    subst h
    exact percentDouble_self c ht
  · intro h
    by_contra hne
    have hlt : c < t := lt_of_le_of_ne hct hne
    have := percentDouble_lt_hundred c t hlt h53
    rw [h] at this
    exact lt_irrefl _ this

theorem getPercentCoveredDouble_region_eq (R : RegionCoverageInfo)
    (h0 : 0 < R.NumRegions) (h : R.Covered ≤ R.NumRegions) :
    R.getPercentCoveredDouble = .ok (percentDouble R.Covered R.NumRegions) := by
  unfold RegionCoverageInfo.getPercentCoveredDouble
  rw [if_pos h, if_neg (by simpa using Nat.pos_iff_ne_zero.mp h0)]

theorem getPercentCoveredDouble_line_eq (L : LineCoverageInfo)
    (h0 : 0 < L.NumLines) (h : L.Covered ≤ L.NumLines) :
    L.getPercentCoveredDouble = .ok (percentDouble L.Covered L.NumLines) := by
  unfold LineCoverageInfo.getPercentCoveredDouble
  rw [if_pos h, if_neg (by simpa using Nat.pos_iff_ne_zero.mp h0)]

theorem getPercentCoveredDouble_branch_eq (B : BranchCoverageInfo)
    (h0 : 0 < B.NumBranches) (h : B.Covered ≤ B.NumBranches) :
    B.getPercentCoveredDouble = .ok (percentDouble B.Covered B.NumBranches) := by
  unfold BranchCoverageInfo.getPercentCoveredDouble
  rw [if_pos h, if_neg (by simpa using Nat.pos_iff_ne_zero.mp h0)]

theorem getPercentCoveredDouble_mcdc_eq (M : MCDCCoverageInfo)
    (h0 : 0 < M.NumPairs) (h : M.CoveredPairs ≤ M.NumPairs) :
    M.getPercentCoveredDouble = .ok (percentDouble M.CoveredPairs M.NumPairs) := by
  unfold MCDCCoverageInfo.getPercentCoveredDouble
  rw [if_pos h, if_neg (by simpa using Nat.pos_iff_ne_zero.mp h0)]

theorem getPercentCoveredDouble_function_eq (F : FunctionCoverageInfo)
    (h0 : 0 < F.NumFunctions) (h : F.Executed ≤ F.NumFunctions) :
    F.getPercentCoveredDouble = .ok (percentDouble F.Executed F.NumFunctions) := by
  unfold FunctionCoverageInfo.getPercentCoveredDouble
  rw [if_pos h, if_neg (by simpa using Nat.pos_iff_ne_zero.mp h0)]

theorem ok_eq_hundred_iff (c t : Nat) (x : Except String ℚ)
    (hx : x = .ok (percentDouble c t)) : x = .ok 100 ↔ percentDouble c t = 100 := by
  subst hx
  rw [Except.ok.injEq]

/-- C12 (the claim fails in `double` arithmetic): with 2^53 of 2^53 + 1 units
covered, the total is positive and covered ≤ total, `isFullyCovered` is false,
and yet `getPercentCovered` returns 100, because `double(2^53 + 1)` rounds to
`2^53` and the quotient is 1; so for each of the five accumulators the
equivalence of the claim fails. -/
theorem C12_hundred_percent_without_full_coverage :
    (0 < 2 ^ 53 + 1 ∧ 2 ^ 53 ≤ 2 ^ 53 + 1) ∧
    ¬ (RegionCoverageInfo.isFullyCovered ⟨2 ^ 53, 2 ^ 53 + 1⟩ = true ↔
        RegionCoverageInfo.getPercentCoveredDouble ⟨2 ^ 53, 2 ^ 53 + 1⟩ = .ok 100) ∧
    ¬ (LineCoverageInfo.isFullyCovered ⟨2 ^ 53, 2 ^ 53 + 1⟩ = true ↔
        LineCoverageInfo.getPercentCoveredDouble ⟨2 ^ 53, 2 ^ 53 + 1⟩ = .ok 100) ∧
    ¬ (BranchCoverageInfo.isFullyCovered ⟨2 ^ 53, 2 ^ 53 + 1⟩ = true ↔
        BranchCoverageInfo.getPercentCoveredDouble ⟨2 ^ 53, 2 ^ 53 + 1⟩ = .ok 100) ∧
    ¬ (MCDCCoverageInfo.isFullyCovered
          { MCDCCoverageInfo.empty with CoveredPairs := 2 ^ 53, NumPairs := 2 ^ 53 + 1 } = true ↔
        MCDCCoverageInfo.getPercentCoveredDouble
          { MCDCCoverageInfo.empty with CoveredPairs := 2 ^ 53, NumPairs := 2 ^ 53 + 1 }
          = .ok 100) ∧
    ¬ (FunctionCoverageInfo.isFullyCovered ⟨2 ^ 53, 2 ^ 53 + 1⟩ = true ↔
        FunctionCoverageInfo.getPercentCoveredDouble ⟨2 ^ 53, 2 ^ 53 + 1⟩ = .ok 100) := by
  have hp := percentDouble_two_pow_53
  refine ⟨⟨by norm_num, by norm_num⟩, ?_, ?_, ?_, ?_, ?_⟩
  · intro h
    have h100 : RegionCoverageInfo.getPercentCoveredDouble ⟨2 ^ 53, 2 ^ 53 + 1⟩ = .ok 100 := by
      rw [getPercentCoveredDouble_region_eq _ (by norm_num) (by norm_num), hp]
    exact absurd (h.mpr h100) (by decide)
  · intro h
    have h100 : LineCoverageInfo.getPercentCoveredDouble ⟨2 ^ 53, 2 ^ 53 + 1⟩ = .ok 100 := by
      rw [getPercentCoveredDouble_line_eq _ (by norm_num) (by norm_num), hp]
    exact absurd (h.mpr h100) (by decide)
  · intro h
    have h100 : BranchCoverageInfo.getPercentCoveredDouble ⟨2 ^ 53, 2 ^ 53 + 1⟩ = .ok 100 := by
      rw [getPercentCoveredDouble_branch_eq _ (by norm_num) (by norm_num), hp]
    exact absurd (h.mpr h100) (by decide)
  · intro h
    have h100 : MCDCCoverageInfo.getPercentCoveredDouble
        { MCDCCoverageInfo.empty with CoveredPairs := 2 ^ 53, NumPairs := 2 ^ 53 + 1 }
        = .ok 100 := by
      rw [getPercentCoveredDouble_mcdc_eq _ (by norm_num) (by norm_num), hp]
    exact absurd (h.mpr h100) (by decide)
  · intro h
    have h100 : FunctionCoverageInfo.getPercentCoveredDouble ⟨2 ^ 53, 2 ^ 53 + 1⟩ = .ok 100 := by
      rw [getPercentCoveredDouble_function_eq _ (by norm_num) (by norm_num), hp]
    exact absurd (h.mpr h100) (by decide)

/-- C12 (amended): for each of the region, line, branch, MC/DC and function
accumulators with total > 0, covered ≤ total and total ≤ 2^53 (so that both
counters are binary64 numbers), `isFullyCovered` is true exactly when
`getPercentCovered`, in `double` arithmetic, returns 100. For every total > 0
below 2^64 a fully covered accumulator has `getPercentCovered` equal to 100. -/
theorem C12_isFullyCovered_iff_hundred_percent_up_to_two_pow_53
    (R : RegionCoverageInfo) (L : LineCoverageInfo) (B : BranchCoverageInfo)
    (M : MCDCCoverageInfo) (F : FunctionCoverageInfo)
    (hR0 : 0 < R.NumRegions) (hR : R.Covered ≤ R.NumRegions) (hR53 : R.NumRegions ≤ 2 ^ 53)
    (hL0 : 0 < L.NumLines) (hL : L.Covered ≤ L.NumLines) (hL53 : L.NumLines ≤ 2 ^ 53)
    (hB0 : 0 < B.NumBranches) (hB : B.Covered ≤ B.NumBranches)
    (hB53 : B.NumBranches ≤ 2 ^ 53)
    (hM0 : 0 < M.NumPairs) (hM : M.CoveredPairs ≤ M.NumPairs) (hM53 : M.NumPairs ≤ 2 ^ 53)
    (hF0 : 0 < F.NumFunctions) (hF : F.Executed ≤ F.NumFunctions)
    (hF53 : F.NumFunctions ≤ 2 ^ 53) :
    (R.isFullyCovered = true ↔ R.getPercentCoveredDouble = .ok 100) ∧
    (L.isFullyCovered = true ↔ L.getPercentCoveredDouble = .ok 100) ∧
    (B.isFullyCovered = true ↔ B.getPercentCoveredDouble = .ok 100) ∧
    (M.isFullyCovered = true ↔ M.getPercentCoveredDouble = .ok 100) ∧
    (F.isFullyCovered = true ↔ F.getPercentCoveredDouble = .ok 100) ∧
    (∀ n : Nat, 0 < n → n < 2 ^ 64 →
      RegionCoverageInfo.getPercentCoveredDouble ⟨n, n⟩ = .ok 100 ∧
      LineCoverageInfo.getPercentCoveredDouble ⟨n, n⟩ = .ok 100 ∧
      BranchCoverageInfo.getPercentCoveredDouble ⟨n, n⟩ = .ok 100 ∧
      MCDCCoverageInfo.getPercentCoveredDouble { M with CoveredPairs := n, NumPairs := n }
        = .ok 100 ∧
      FunctionCoverageInfo.getPercentCoveredDouble ⟨n, n⟩ = .ok 100) := by
  refine ⟨?_, ?_, ?_, ?_, ?_, ?_⟩
  · exact (percentDouble_full_iff _ _ hR0 hR hR53).trans
      (ok_eq_hundred_iff _ _ _ (getPercentCoveredDouble_region_eq R hR0 hR)).symm
  · exact (percentDouble_full_iff _ _ hL0 hL hL53).trans
      (ok_eq_hundred_iff _ _ _ (getPercentCoveredDouble_line_eq L hL0 hL)).symm
  · exact (percentDouble_full_iff _ _ hB0 hB hB53).trans
      (ok_eq_hundred_iff _ _ _ (getPercentCoveredDouble_branch_eq B hB0 hB)).symm
  · exact (percentDouble_full_iff _ _ hM0 hM hM53).trans
      (ok_eq_hundred_iff _ _ _ (getPercentCoveredDouble_mcdc_eq M hM0 hM)).symm
  · exact (percentDouble_full_iff _ _ hF0 hF hF53).trans
      (ok_eq_hundred_iff _ _ _ (getPercentCoveredDouble_function_eq F hF0 hF)).symm
  · intro n hn _
    have hp := percentDouble_self n hn
    refine ⟨?_, ?_, ?_, ?_, ?_⟩
    · rw [getPercentCoveredDouble_region_eq _ hn (Nat.le_refl _), hp]
    · rw [getPercentCoveredDouble_line_eq _ hn (Nat.le_refl _), hp]
    · rw [getPercentCoveredDouble_branch_eq _ hn (Nat.le_refl _), hp]
    · rw [getPercentCoveredDouble_mcdc_eq _ hn (Nat.le_refl _), hp]
    · rw [getPercentCoveredDouble_function_eq _ hn (Nat.le_refl _), hp]

/-- C12 (amended) at two fully covered accumulators, (5,5) and 4 of 4 pairs,
and three partly covered ones, (1,2), (3,4) and (0,7). -/
theorem C12_isFullyCovered_iff_hundred_percent_up_to_two_pow_53_witness :
    (RegionCoverageInfo.isFullyCovered ⟨5, 5⟩ = true ∧
      RegionCoverageInfo.getPercentCoveredDouble ⟨5, 5⟩ = .ok 100) ∧
    (LineCoverageInfo.isFullyCovered ⟨1, 2⟩ = false ∧
      LineCoverageInfo.getPercentCoveredDouble ⟨1, 2⟩ ≠ .ok 100) ∧
    (BranchCoverageInfo.isFullyCovered ⟨3, 4⟩ = false ∧
      BranchCoverageInfo.getPercentCoveredDouble ⟨3, 4⟩ ≠ .ok 100) ∧
    (MCDCCoverageInfo.isFullyCovered ⟨4, 4, 2, 2, 0, 0, 0, 0, 4, 2⟩ = true ∧
      MCDCCoverageInfo.getPercentCoveredDouble ⟨4, 4, 2, 2, 0, 0, 0, 0, 4, 2⟩ = .ok 100) ∧
    (FunctionCoverageInfo.isFullyCovered ⟨0, 7⟩ = false ∧
      FunctionCoverageInfo.getPercentCoveredDouble ⟨0, 7⟩ ≠ .ok 100) := by
  obtain ⟨hR, hL, hB, hM, hF, _⟩ :=
    C12_isFullyCovered_iff_hundred_percent_up_to_two_pow_53 ⟨5, 5⟩ ⟨1, 2⟩ ⟨3, 4⟩
      ⟨4, 4, 2, 2, 0, 0, 0, 0, 4, 2⟩ ⟨0, 7⟩
      (by decide) (by decide) (by norm_num) (by decide) (by decide) (by norm_num)
      (by decide) (by decide) (by norm_num) (by decide) (by decide) (by norm_num)
      (by decide) (by decide) (by norm_num)
  refine ⟨⟨rfl, hR.mp rfl⟩, ⟨rfl, fun h => ?_⟩, ⟨rfl, fun h => ?_⟩, ⟨rfl, hM.mp rfl⟩,
    ⟨rfl, fun h => ?_⟩⟩
  · exact absurd (hL.mpr h) (by decide)
  · exact absurd (hB.mpr h) (by decide)
  · exact absurd (hF.mpr h) (by decide)

/-! ## Adding an instantiation to a file summary -/

/-- C14: `FileCoverageSummary::addInstantiation(S)` counts one more
instantiation, one more executed instantiation exactly when
`S.ExecutionCount > 0`, and leaves `FunctionCoverage`, the region, line,
branch and MC/DC accumulators and `Name` as they were. -/
theorem C14_addInstantiation_frame (F : FileCoverageSummary)
    (S : FunctionCoverageSummary) :
    (F.addInstantiation S).InstantiationCoverage.NumFunctions
      = F.InstantiationCoverage.NumFunctions + 1 ∧
    (F.addInstantiation S).InstantiationCoverage.Executed
      = F.InstantiationCoverage.Executed + (if S.ExecutionCount > 0 then 1 else 0) ∧
    (F.addInstantiation S).FunctionCoverage = F.FunctionCoverage ∧
    (F.addInstantiation S).RegionCoverage = F.RegionCoverage ∧
    (F.addInstantiation S).LineCoverage = F.LineCoverage ∧
    (F.addInstantiation S).BranchCoverage = F.BranchCoverage ∧
    (F.addInstantiation S).MCDCCoverage = F.MCDCCoverage ∧
    (F.addInstantiation S).Name = F.Name := by
  refine ⟨rfl, ?_, rfl, rfl, rfl, rfl, rfl, rfl⟩
  simp only [FileCoverageSummary.addInstantiation, FunctionCoverageInfo.addFunction]
  by_cases h : S.ExecutionCount > 0 <;> simp [h]

/-! ## The invariant covered ≤ total -/

/-- C16: `operator+=` and `merge` of the region, line, branch and MC/DC
accumulators preserve covered ≤ total: when both operands satisfy it, so do
the sum and the merge (counters being unbounded naturals). -/
theorem C16_add_merge_preserve_covered_le (R1 R2 : RegionCoverageInfo)
    (L1 L2 : LineCoverageInfo) (B1 B2 : BranchCoverageInfo) (M1 M2 : MCDCCoverageInfo)
    (hR1 : R1.Covered ≤ R1.NumRegions) (hR2 : R2.Covered ≤ R2.NumRegions)
    (hL1 : L1.Covered ≤ L1.NumLines) (hL2 : L2.Covered ≤ L2.NumLines)
    (hB1 : B1.Covered ≤ B1.NumBranches) (hB2 : B2.Covered ≤ B2.NumBranches)
    (hM1 : M1.CoveredPairs ≤ M1.NumPairs) (hM2 : M2.CoveredPairs ≤ M2.NumPairs) :
    ((R1.add R2).Covered ≤ (R1.add R2).NumRegions ∧
      (R1.merge R2).Covered ≤ (R1.merge R2).NumRegions) ∧
    ((L1.add L2).Covered ≤ (L1.add L2).NumLines ∧
      (L1.merge L2).Covered ≤ (L1.merge L2).NumLines) ∧
    ((B1.add B2).Covered ≤ (B1.add B2).NumBranches ∧
      (B1.merge B2).Covered ≤ (B1.merge B2).NumBranches) ∧
    ((M1.add M2).CoveredPairs ≤ (M1.add M2).NumPairs ∧
      (M1.merge M2).1.CoveredPairs ≤ (M1.merge M2).1.NumPairs) := by
  simp only [RegionCoverageInfo.add, RegionCoverageInfo.merge, LineCoverageInfo.add,
    LineCoverageInfo.merge, BranchCoverageInfo.add, BranchCoverageInfo.merge,
    MCDCCoverageInfo.add, MCDCCoverageInfo.merge, MCDCCoverageInfo.mergeFields]
  refine ⟨⟨?_, ?_⟩, ⟨?_, ?_⟩, ⟨?_, ?_⟩, ⟨?_, ?_⟩⟩ <;> omega

/-- C16 at the accumulators of `exampleSummaryA` and `exampleSummaryB`. -/
theorem C16_add_merge_preserve_covered_le_witness :
    ((RegionCoverageInfo.add ⟨2, 5⟩ ⟨3, 5⟩).Covered
        ≤ (RegionCoverageInfo.add ⟨2, 5⟩ ⟨3, 5⟩).NumRegions ∧
      (RegionCoverageInfo.merge ⟨2, 5⟩ ⟨3, 5⟩).Covered
        ≤ (RegionCoverageInfo.merge ⟨2, 5⟩ ⟨3, 5⟩).NumRegions) ∧
    ((LineCoverageInfo.add ⟨4, 10⟩ ⟨6, 10⟩).Covered
        ≤ (LineCoverageInfo.add ⟨4, 10⟩ ⟨6, 10⟩).NumLines ∧
      (LineCoverageInfo.merge ⟨4, 10⟩ ⟨6, 10⟩).Covered
        ≤ (LineCoverageInfo.merge ⟨4, 10⟩ ⟨6, 10⟩).NumLines) ∧
    ((BranchCoverageInfo.add ⟨1, 2⟩ ⟨2, 2⟩).Covered
        ≤ (BranchCoverageInfo.add ⟨1, 2⟩ ⟨2, 2⟩).NumBranches ∧
      (BranchCoverageInfo.merge ⟨1, 2⟩ ⟨2, 2⟩).Covered
        ≤ (BranchCoverageInfo.merge ⟨1, 2⟩ ⟨2, 2⟩).NumBranches) ∧
    ((exampleSummaryA.MCDCCoverage.add exampleSummaryB.MCDCCoverage).CoveredPairs
        ≤ (exampleSummaryA.MCDCCoverage.add exampleSummaryB.MCDCCoverage).NumPairs ∧
      (exampleSummaryA.MCDCCoverage.merge exampleSummaryB.MCDCCoverage).1.CoveredPairs
        ≤ (exampleSummaryA.MCDCCoverage.merge exampleSummaryB.MCDCCoverage).1.NumPairs) :=
  C16_add_merge_preserve_covered_le ⟨2, 5⟩ ⟨3, 5⟩ ⟨4, 10⟩ ⟨6, 10⟩ ⟨1, 2⟩ ⟨2, 2⟩
    exampleSummaryA.MCDCCoverage exampleSummaryB.MCDCCoverage
    (by decide) (by decide) (by decide) (by decide) (by decide) (by decide)
    (by decide) (by decide)

/-! ## More on the summary of one instantiation -/

theorem sumRegions_eq_counts (Regions : List CountedRegion) (acc : Nat × Nat) :
    Regions.foldl sumRegionsStep acc =
      (acc.1 + Regions.countP (fun CR => CR.Kind == RegionKind.CodeRegion),
       acc.2 + Regions.countP
        (fun CR => CR.Kind == RegionKind.CodeRegion && CR.ExecutionCount != 0)) := by
  induction Regions generalizing acc with
  | nil => simp
  | cons CR Rest ih =>
    rw [List.foldl_cons, ih]
    by_cases hK : CR.Kind = RegionKind.CodeRegion <;>
      by_cases hE : CR.ExecutionCount = 0 <;>
      simp [sumRegionsStep, hK, hE, List.countP_cons] <;> omega

theorem sumMCDCRecord_error (S : MCDCSums) (R : MCDCRecord)
    (h : ¬(2 ≤ R.getNumConditions ∧ R.getNumConditions ≤ 6)) :
    sumMCDCRecord S R =
      .error "Encountered a decision whose num of conditions isn't \x7b2, 3, 4, 5, 6\x7d" := by
  unfold sumMCDCRecord
  dsimp only
  split <;> first | omega | rfl

theorem foldlM_sumMCDCRecord_error (Records : List MCDCRecord)
    (h : ∃ R ∈ Records, ¬(2 ≤ R.getNumConditions ∧ R.getNumConditions ≤ 6)) (S : MCDCSums) :
    Records.foldlM sumMCDCRecord S =
      .error "Encountered a decision whose num of conditions isn't \x7b2, 3, 4, 5, 6\x7d" := by
  induction Records generalizing S with
  | nil => obtain ⟨R, hR, _⟩ := h; cases hR
  | cons R Rs ih =>
    rw [List.foldlM_cons]
    by_cases hR : 2 ≤ R.getNumConditions ∧ R.getNumConditions ≤ 6
    · rw [sumMCDCRecord_ok S R hR]
      simp only [bind, Except.bind]
      apply ih
      obtain ⟨R2, hmem, hout⟩ := h
      rcases List.mem_cons.mp hmem with rfl | hmem
      · exact absurd hR hout
      · exact ⟨R2, hmem, hout⟩
    · rw [sumMCDCRecord_error S R hR]
      rfl

/-- The only failure of `sumMCDCPairs` is its assertion on the number of
conditions, and it fails exactly when some record has a number outside 2..6. -/
theorem sumMCDCPairs_error_iff (Records : List MCDCRecord) (N2 N3 N4 N5 N6 : Nat)
    (e : String) :
    sumMCDCPairs Records N2 N3 N4 N5 N6 = .error e ↔
      e = "Encountered a decision whose num of conditions isn't \x7b2, 3, 4, 5, 6\x7d" ∧
      ∃ R ∈ Records, ¬(2 ≤ R.getNumConditions ∧ R.getNumConditions ≤ 6) := by
  constructor
  · intro h
    by_cases hall : ∀ R ∈ Records, 2 ≤ R.getNumConditions ∧ R.getNumConditions ≤ 6
    · rw [sumMCDCPairs_ok Records N2 N3 N4 N5 N6 hall] at h
      cases h
    · have hex : ∃ R ∈ Records, ¬(2 ≤ R.getNumConditions ∧ R.getNumConditions ≤ 6) := by
        by_contra hne
        exact hall (fun R hR => by_contra (fun hc => hne ⟨R, hR, hc⟩))
      refine ⟨?_, hex⟩
      unfold sumMCDCPairs at h
      rw [foldlM_sumMCDCRecord_error Records hex] at h
      cases h
      rfl
  · rintro ⟨rfl, hex⟩
    unfold sumMCDCPairs
    exact foldlM_sumMCDCRecord_error Records hex _

/-- What `FunctionCoverageSummary::get(CM, Function)` returns when the branch
summation returns: the region, line and branch constructors pass, and the
result is decided by the MC/DC summation and the MC/DC constructor. -/
theorem FunctionCoverageSummary.get_some (fuel : Nat) (CM : CoverageMapping)
    (Function : FunctionRecord) (NumPairsAll NumDecisionsWithAtLeastTwoNonConstCond : Nat)
    (r : Except String FunctionCoverageSummary)
    (h : FunctionCoverageSummary.get fuel CM Function NumPairsAll
      NumDecisionsWithAtLeastTwoNonConstCond = some r) :
    ∃ Br, sumBranchExpansions CM fuel
        (sumBranches 0 0 (CM.getCoverageForFunction Function).getBranches)
        (CM.getCoverageForFunction Function).getExpansions = some Br ∧
      Br.2 ≤ Br.1 ∧
      r = (match sumMCDCPairs (CM.getCoverageForFunction Function).getMCDCRecords 0 0 0 0 0 with
        | .error e => .error e
        | .ok M =>
          if M.CoveredPairs ≤ M.NumPairs then
            .ok { Name := Function.Name
                  ExecutionCount := Function.ExecutionCount
                  RegionCoverage :=
                    ⟨(Function.CountedRegions.foldl sumRegionsStep (0, 0)).2,
                     (Function.CountedRegions.foldl sumRegionsStep (0, 0)).1⟩
                  LineCoverage :=
                    ⟨((CM.getCoverageForFunction Function).getLineCoverageStats.foldl
                        sumLinesStep (0, 0)).2,
                     ((CM.getCoverageForFunction Function).getLineCoverageStats.foldl
                        sumLinesStep (0, 0)).1⟩
                  BranchCoverage := ⟨Br.2, Br.1⟩
                  MCDCCoverage :=
                    ⟨M.CoveredPairs, M.NumPairs, M.NumDecisions, M.NumDecisions2,
                     M.NumDecisions3, M.NumDecisions4, M.NumDecisions5, M.NumDecisions6,
                     NumPairsAll, NumDecisionsWithAtLeastTwoNonConstCond⟩ }
          else .error "Covered pairs over-counted") := by
  cases hB : sumBranchExpansions CM fuel
      (sumBranches 0 0 (CM.getCoverageForFunction Function).getBranches)
      (CM.getCoverageForFunction Function).getExpansions with
  | none => simp [FunctionCoverageSummary.get, hB] at h
  | some Br =>
    have hreg := sumRegions_covered_le Function.CountedRegions (0, 0) (Nat.le_refl _)
    have hlin := sumLines_covered_le
      (CM.getCoverageForFunction Function).getLineCoverageStats (0, 0) (Nat.le_refl _)
    have hbr := sumBranchExpansions_preserves_le CM fuel _ _ _ hB
      (sumBranches_preserves_le _ (0, 0) (Nat.le_refl _))
    refine ⟨Br, rfl, hbr, ?_⟩
    simp only [FunctionCoverageSummary.get, hB, RegionCoverageInfo.create_region_ok hreg,
      LineCoverageInfo.create_line_ok hlin, BranchCoverageInfo.create_branch_ok hbr,
      Option.some.injEq] at h
    rw [← h]
    cases hM : sumMCDCPairs (CM.getCoverageForFunction Function).getMCDCRecords 0 0 0 0 0 with
    | error e => rfl
    | ok M =>
      by_cases hle : M.CoveredPairs ≤ M.NumPairs
      · simp [MCDCCoverageInfo.create, hle, bind, Except.bind, pure, Except.pure]
      · simp [MCDCCoverageInfo.create, hle, bind, Except.bind, pure, Except.pure]

/-- A summary returned by `FunctionCoverageSummary::get(CM, Function)` is built
from the region, line, branch and MC/DC counts. -/
theorem FunctionCoverageSummary.get_ok_full (fuel : Nat) (CM : CoverageMapping)
    (Function : FunctionRecord) (NumPairsAll NumDecisionsWithAtLeastTwoNonConstCond : Nat)
    (S : FunctionCoverageSummary)
    (h : FunctionCoverageSummary.get fuel CM Function NumPairsAll
      NumDecisionsWithAtLeastTwoNonConstCond = some (.ok S)) :
    ∃ Br M, sumBranchExpansions CM fuel
        (sumBranches 0 0 (CM.getCoverageForFunction Function).getBranches)
        (CM.getCoverageForFunction Function).getExpansions = some Br ∧
      Br.2 ≤ Br.1 ∧
      sumMCDCPairs (CM.getCoverageForFunction Function).getMCDCRecords 0 0 0 0 0 = .ok M ∧
      M.CoveredPairs ≤ M.NumPairs ∧
      S = { Name := Function.Name
            ExecutionCount := Function.ExecutionCount
            RegionCoverage :=
              ⟨(Function.CountedRegions.foldl sumRegionsStep (0, 0)).2,
               (Function.CountedRegions.foldl sumRegionsStep (0, 0)).1⟩
            LineCoverage :=
              ⟨((CM.getCoverageForFunction Function).getLineCoverageStats.foldl
                  sumLinesStep (0, 0)).2,
               ((CM.getCoverageForFunction Function).getLineCoverageStats.foldl
                  sumLinesStep (0, 0)).1⟩
            BranchCoverage := ⟨Br.2, Br.1⟩
            MCDCCoverage :=
              ⟨M.CoveredPairs, M.NumPairs, M.NumDecisions, M.NumDecisions2,
               M.NumDecisions3, M.NumDecisions4, M.NumDecisions5, M.NumDecisions6,
               NumPairsAll, NumDecisionsWithAtLeastTwoNonConstCond⟩ } := by
  obtain ⟨Br, hB, hble, hr⟩ := FunctionCoverageSummary.get_some fuel CM Function NumPairsAll
    NumDecisionsWithAtLeastTwoNonConstCond _ h
  cases hM : sumMCDCPairs (CM.getCoverageForFunction Function).getMCDCRecords 0 0 0 0 0 with
  | error e => rw [hM] at hr; cases hr
  | ok M =>
    rw [hM] at hr
    by_cases hle : M.CoveredPairs ≤ M.NumPairs
    · simp only [hle, if_true, Except.ok.injEq] at hr
      exact ⟨Br, M, hB, hble, rfl, hle, hr⟩
    · simp only [hle, if_false] at hr
      cases hr

/-- A failure of `FunctionCoverageSummary::get(CM, Function)` is the assertion
of `sumMCDCPairs` or the assertion of the `MCDCCoverageInfo` constructor. -/
theorem FunctionCoverageSummary.get_error (fuel : Nat) (CM : CoverageMapping)
    (Function : FunctionRecord) (NumPairsAll NumDecisionsWithAtLeastTwoNonConstCond : Nat)
    (e : String)
    (h : FunctionCoverageSummary.get fuel CM Function NumPairsAll
      NumDecisionsWithAtLeastTwoNonConstCond = some (.error e)) :
    (e = "Encountered a decision whose num of conditions isn't \x7b2, 3, 4, 5, 6\x7d" ∧
      sumMCDCPairs (CM.getCoverageForFunction Function).getMCDCRecords 0 0 0 0 0 = .error e) ∨
    (e = "Covered pairs over-counted" ∧
      ∃ M, sumMCDCPairs (CM.getCoverageForFunction Function).getMCDCRecords 0 0 0 0 0 = .ok M ∧
        ¬ M.CoveredPairs ≤ M.NumPairs) := by
  obtain ⟨Br, hB, hble, hr⟩ := FunctionCoverageSummary.get_some fuel CM Function NumPairsAll
    NumDecisionsWithAtLeastTwoNonConstCond _ h
  cases hM : sumMCDCPairs (CM.getCoverageForFunction Function).getMCDCRecords 0 0 0 0 0 with
  | error e2 =>
    rw [hM] at hr
    simp only [Except.error.injEq] at hr
    subst hr
    exact Or.inl ⟨((sumMCDCPairs_error_iff _ 0 0 0 0 0 e).mp hM).1, rfl⟩
  | ok M =>
    rw [hM] at hr
    by_cases hle : M.CoveredPairs ≤ M.NumPairs
    · simp only [hle, if_true] at hr
      cases hr
    · simp only [hle, if_false, Except.error.injEq] at hr
      exact Or.inr ⟨hr, M, rfl, hle⟩

/-! ## Region coverage of one instantiation -/

/-- C13: the region loop of `FunctionCoverageSummary::get(CM, Function)` counts
as total the counted regions of kind `CodeRegion` and as covered those of them
with a nonzero `ExecutionCount`, and a region of any other kind changes
neither count. When the expansions of the function resolve to finite trees
and the fuel exceeds their depth, `get` returns: its result is a summary with
exactly this region coverage unless one of the two MC/DC assertions fails, and
it is a summary whenever the MC/DC summation passes with covered pairs ≤
pairs. For any fuel, a returned summary has this region coverage. -/
theorem C13_region_coverage_counts_code_regions (fuel : Nat) (CM : CoverageMapping)
    (Function : FunctionRecord) (NumPairsAll NumDecisionsWithAtLeastTwoNonConstCond : Nat)
    (Ts : List ExpansionTree)
    (hResolves : ExpansionTree.ResolvesAll CM
      (CM.getCoverageForFunction Function).getExpansions Ts)
    (hFuel : ExpansionTree.depthAll Ts < fuel) :
    Function.CountedRegions.foldl sumRegionsStep (0, 0) =
      (Function.CountedRegions.countP (fun CR => CR.Kind == RegionKind.CodeRegion),
       Function.CountedRegions.countP
        (fun CR => CR.Kind == RegionKind.CodeRegion && CR.ExecutionCount != 0)) ∧
    (∃ r, FunctionCoverageSummary.get fuel CM Function NumPairsAll
        NumDecisionsWithAtLeastTwoNonConstCond = some r ∧
      ((∃ S, r = .ok S ∧
          S.RegionCoverage =
            ⟨Function.CountedRegions.countP
              (fun CR => CR.Kind == RegionKind.CodeRegion && CR.ExecutionCount != 0),
             Function.CountedRegions.countP (fun CR => CR.Kind == RegionKind.CodeRegion)⟩) ∨
        r = .error
          "Encountered a decision whose num of conditions isn't \x7b2, 3, 4, 5, 6\x7d" ∨
        r = .error "Covered pairs over-counted") ∧
      (∀ M, sumMCDCPairs (CM.getCoverageForFunction Function).getMCDCRecords 0 0 0 0 0
          = .ok M → M.CoveredPairs ≤ M.NumPairs → ∃ S, r = .ok S)) ∧
    (∀ (fuel2 : Nat) (S : FunctionCoverageSummary),
      FunctionCoverageSummary.get fuel2 CM Function NumPairsAll
        NumDecisionsWithAtLeastTwoNonConstCond = some (.ok S) →
      S.RegionCoverage =
        ⟨Function.CountedRegions.countP
          (fun CR => CR.Kind == RegionKind.CodeRegion && CR.ExecutionCount != 0),
         Function.CountedRegions.countP (fun CR => CR.Kind == RegionKind.CodeRegion)⟩) ∧
    (∀ (acc : Nat × Nat) (CR : CountedRegion),
      CR.Kind ≠ RegionKind.CodeRegion → sumRegionsStep acc CR = acc) := by
  have hloop : Function.CountedRegions.foldl sumRegionsStep (0, 0) =
      (Function.CountedRegions.countP (fun CR => CR.Kind == RegionKind.CodeRegion),
       Function.CountedRegions.countP
        (fun CR => CR.Kind == RegionKind.CodeRegion && CR.ExecutionCount != 0)) := by
    rw [sumRegions_eq_counts]
    simp only [Nat.zero_add]
  have hany : ∀ (fuel2 : Nat) (S : FunctionCoverageSummary),
      FunctionCoverageSummary.get fuel2 CM Function NumPairsAll
        NumDecisionsWithAtLeastTwoNonConstCond = some (.ok S) →
      S.RegionCoverage =
        ⟨Function.CountedRegions.countP
          (fun CR => CR.Kind == RegionKind.CodeRegion && CR.ExecutionCount != 0),
         Function.CountedRegions.countP (fun CR => CR.Kind == RegionKind.CodeRegion)⟩ := by
    intro fuel2 S hS
    obtain ⟨Br, M, _, _, _, _, hSeq⟩ := FunctionCoverageSummary.get_ok_full fuel2 CM Function
      NumPairsAll NumDecisionsWithAtLeastTwoNonConstCond S hS
    subst hSeq
    simp only [hloop]
  have hB := sumBranchExpansions_resolved CM fuel Ts
    (CM.getCoverageForFunction Function).getExpansions
    (sumBranches 0 0 (CM.getCoverageForFunction Function).getBranches) hResolves hFuel
  refine ⟨hloop, ?_, hany, ?_⟩
  · cases hg : FunctionCoverageSummary.get fuel CM Function NumPairsAll
        NumDecisionsWithAtLeastTwoNonConstCond with
    | none => simp [FunctionCoverageSummary.get, hB] at hg
    | some r =>
      refine ⟨r, rfl, ?_, ?_⟩
      · cases r with
        | ok S => exact Or.inl ⟨S, rfl, hany fuel S hg⟩
        | error e =>
          rcases FunctionCoverageSummary.get_error fuel CM Function NumPairsAll
            NumDecisionsWithAtLeastTwoNonConstCond e hg with ⟨he, _⟩ | ⟨he, _⟩
          · exact Or.inr (Or.inl (by rw [he]))
          · exact Or.inr (Or.inr (by rw [he]))
      · intro M hM hle
        have hok := FunctionCoverageSummary.get_ok fuel CM Function NumPairsAll
          NumDecisionsWithAtLeastTwoNonConstCond _ M hB hM hle
        rw [hg] at hok
        exact ⟨_, Option.some.inj hok⟩
  · intro acc CR hK
    simp [sumRegionsStep, hK]

/-- C13 at `mixedRegionsFunction` under `exampleCM`, whose expansions nest
twice: `get` returns a summary, and two code regions, one of them executed,
among regions of four other kinds give region coverage (1,2). -/
theorem C13_region_coverage_counts_code_regions_witness :
    ∃ S, FunctionCoverageSummary.get 3 exampleCM mixedRegionsFunction 0 0 = some (.ok S) ∧
      S.RegionCoverage = ⟨1, 2⟩ := by
  obtain ⟨_, ⟨r, hr, _, hM⟩, hany, _⟩ :=
    C13_region_coverage_counts_code_regions 3 exampleCM mixedRegionsFunction 0 0 exampleTrees
      (by simp [ExpansionTree.ResolvesAll, ExpansionTree.Resolves, exampleCM, exampleTrees])
      (by simp [ExpansionTree.depthAll, ExpansionTree.depth, exampleTrees])
  obtain ⟨S, hS⟩ := hM _ rfl (by decide)
  subst hS
  exact ⟨S, hr, hany 3 S hr⟩

/-! ## The assertion of `sumMCDCPairs` -/

/-- C15: `sumMCDCPairs` fails with its assertion exactly when some decision
record has a number of conditions outside 2..6, it has no other failure, and
it returns when every record has 2 to 6 conditions; the summary of a function
instance fails with that assertion exactly when one of its decision records
is outside 2..6. A record of seven conditions fails. -/
theorem C15_sumMCDCPairs_assertion_iff (Records : List MCDCRecord)
    (N2 N3 N4 N5 N6 : Nat) :
    (sumMCDCPairs Records N2 N3 N4 N5 N6 = .error "Encountered a decision whose num of conditions isn't \x7b2, 3, 4, 5, 6\x7d" ↔
      ∃ R ∈ Records, ¬(2 ≤ R.getNumConditions ∧ R.getNumConditions ≤ 6)) ∧
    (∀ e, sumMCDCPairs Records N2 N3 N4 N5 N6 = .error e → e = "Encountered a decision whose num of conditions isn't \x7b2, 3, 4, 5, 6\x7d") ∧
    ((∀ R ∈ Records, 2 ≤ R.getNumConditions ∧ R.getNumConditions ≤ 6) →
      ∃ M, sumMCDCPairs Records N2 N3 N4 N5 N6 = .ok M) ∧
    (∀ (fuel : Nat) (CM : CoverageMapping) (Function : FunctionRecord)
        (NumPairsAll NumDecisionsWithAtLeastTwoNonConstCond : Nat)
        (r : Except String FunctionCoverageSummary),
      (CM.getCoverageForFunction Function).getMCDCRecords = Records →
      FunctionCoverageSummary.get fuel CM Function NumPairsAll
        NumDecisionsWithAtLeastTwoNonConstCond = some r →
      (r = .error "Encountered a decision whose num of conditions isn't \x7b2, 3, 4, 5, 6\x7d" ↔
        ∃ R ∈ Records, ¬(2 ≤ R.getNumConditions ∧ R.getNumConditions ≤ 6))) ∧
    sumMCDCPairs [sevenConditionRecord] N2 N3 N4 N5 N6 = .error "Encountered a decision whose num of conditions isn't \x7b2, 3, 4, 5, 6\x7d" ∧
    FunctionCoverageSummary.get 1 sevenConditionCM exampleFunction 0 0 = some (.error "Encountered a decision whose num of conditions isn't \x7b2, 3, 4, 5, 6\x7d") := by
  refine ⟨?_, ?_, ?_, ?_, rfl, rfl⟩
  · rw [sumMCDCPairs_error_iff]
    simp
  · intro e he
    exact ((sumMCDCPairs_error_iff _ _ _ _ _ _ e).mp he).1
  · intro hall
    exact ⟨_, sumMCDCPairs_ok Records N2 N3 N4 N5 N6 hall⟩
  · intro fuel CM Function a b r hRec hget
    subst hRec
    constructor
    · intro hr
      subst hr
      rcases FunctionCoverageSummary.get_error fuel CM Function a b _ hget with
        ⟨_, hE⟩ | ⟨hE, _⟩
      · exact ((sumMCDCPairs_error_iff _ _ _ _ _ _ _).mp hE).2
      · exact absurd hE (by decide)
    · intro hex
      obtain ⟨Br, _, _, hr⟩ := FunctionCoverageSummary.get_some fuel CM Function a b r hget
      rw [(sumMCDCPairs_error_iff _ 0 0 0 0 0 _).mpr ⟨rfl, hex⟩] at hr
      exact hr

/-! ## The constructor assertions when an instance summary is built -/

/-- C17: whenever `FunctionCoverageSummary::get(CM, Function)` returns (the
branch summation over the expansions returns), the region, line and branch
counts it passes to the constructors satisfy covered ≤ total, so the three
constructors return without their assertion; the result is then none of the
three "over-counted" failures, and a returned summary has covered ≤ total in
its region, line and branch accumulators. -/
theorem C17_region_line_branch_assertions_hold (fuel : Nat) (CM : CoverageMapping)
    (Function : FunctionRecord) (NumPairsAll NumDecisionsWithAtLeastTwoNonConstCond : Nat)
    (r : Except String FunctionCoverageSummary)
    (h : FunctionCoverageSummary.get fuel CM Function NumPairsAll
      NumDecisionsWithAtLeastTwoNonConstCond = some r) :
    (∃ Br, sumBranchExpansions CM fuel
        (sumBranches 0 0 (CM.getCoverageForFunction Function).getBranches)
        (CM.getCoverageForFunction Function).getExpansions = some Br ∧
      RegionCoverageInfo.create (Function.CountedRegions.foldl sumRegionsStep (0, 0)).2
          (Function.CountedRegions.foldl sumRegionsStep (0, 0)).1
        = .ok ⟨(Function.CountedRegions.foldl sumRegionsStep (0, 0)).2,
               (Function.CountedRegions.foldl sumRegionsStep (0, 0)).1⟩ ∧
      LineCoverageInfo.create
          ((CM.getCoverageForFunction Function).getLineCoverageStats.foldl
            sumLinesStep (0, 0)).2
          ((CM.getCoverageForFunction Function).getLineCoverageStats.foldl
            sumLinesStep (0, 0)).1
        = .ok ⟨((CM.getCoverageForFunction Function).getLineCoverageStats.foldl
                  sumLinesStep (0, 0)).2,
               ((CM.getCoverageForFunction Function).getLineCoverageStats.foldl
                  sumLinesStep (0, 0)).1⟩ ∧
      BranchCoverageInfo.create Br.2 Br.1 = .ok ⟨Br.2, Br.1⟩) ∧
    r ≠ .error "Covered regions over-counted" ∧
    r ≠ .error "Covered lines over-counted" ∧
    r ≠ .error "Covered branches over-counted" ∧
    (∀ S, r = .ok S →
      S.RegionCoverage.Covered ≤ S.RegionCoverage.NumRegions ∧
      S.LineCoverage.Covered ≤ S.LineCoverage.NumLines ∧
      S.BranchCoverage.Covered ≤ S.BranchCoverage.NumBranches) := by
  have hreg := sumRegions_covered_le Function.CountedRegions (0, 0) (Nat.le_refl _)
  have hlin := sumLines_covered_le
    (CM.getCoverageForFunction Function).getLineCoverageStats (0, 0) (Nat.le_refl _)
  obtain ⟨Br, hB, hble, _⟩ := FunctionCoverageSummary.get_some fuel CM Function NumPairsAll
    NumDecisionsWithAtLeastTwoNonConstCond r h
  have herr : ∀ e, r = .error e →
      e = "Encountered a decision whose num of conditions isn't \x7b2, 3, 4, 5, 6\x7d" ∨
      e = "Covered pairs over-counted" := by
    intro e he
    subst he
    rcases FunctionCoverageSummary.get_error fuel CM Function NumPairsAll
      NumDecisionsWithAtLeastTwoNonConstCond e h with ⟨h1, _⟩ | ⟨h1, _⟩
    · exact Or.inl h1
    · exact Or.inr h1
  refine ⟨⟨Br, hB, RegionCoverageInfo.create_region_ok hreg,
    LineCoverageInfo.create_line_ok hlin, BranchCoverageInfo.create_branch_ok hble⟩,
    ?_, ?_, ?_, ?_⟩
  · intro he
    rcases herr _ he with h1 | h1 <;> exact absurd h1 (by decide)
  · intro he
    rcases herr _ he with h1 | h1 <;> exact absurd h1 (by decide)
  · intro he
    rcases herr _ he with h1 | h1 <;> exact absurd h1 (by decide)
  · intro S hS
    subst hS
    obtain ⟨Br2, M, hB2, hble2, _, _, hS⟩ := FunctionCoverageSummary.get_ok_full fuel CM
      Function NumPairsAll NumDecisionsWithAtLeastTwoNonConstCond S h
    subst hS
    exact ⟨hreg, hlin, hble2⟩

/-- C17 at `mixedRegionsFunction` under `exampleCM`, whose expansions nest
twice: the summary is returned with region (1,2), line (1,1) and branch (3,6)
coverage. -/
theorem C17_region_line_branch_assertions_hold_witness :
    ∃ S, FunctionCoverageSummary.get 3 exampleCM mixedRegionsFunction 0 0 = some (.ok S) ∧
      S.RegionCoverage = ⟨1, 2⟩ ∧ S.LineCoverage = ⟨1, 1⟩ ∧ S.BranchCoverage = ⟨3, 6⟩ ∧
      S.RegionCoverage.Covered ≤ S.RegionCoverage.NumRegions ∧
      S.LineCoverage.Covered ≤ S.LineCoverage.NumLines ∧
      S.BranchCoverage.Covered ≤ S.BranchCoverage.NumBranches := by
  refine ⟨_, rfl, rfl, rfl, rfl, ?_⟩
  exact (C17_region_line_branch_assertions_hold 3 exampleCM mixedRegionsFunction 0 0 _
    rfl).2.2.2.2 _ rfl

/-- C18 (the code at the failing input): for the single decision record
`allFoldedCoveredRecord` (two conditions, both folded, both reported covered)
`sumMCDCPairs` returns 0 pairs and 2 covered pairs, and building the instance
summary fails with the assertion of the `MCDCCoverageInfo` constructor. -/
theorem C18_covered_pairs_exceed_pairs_on_folded_covered :
    sumMCDCPairs [allFoldedCoveredRecord] 0 0 0 0 0 =
      .ok { NumPairs := 0, CoveredPairs := 2, NumDecisions := 1, NumDecisions2 := 1
            NumDecisions3 := 0, NumDecisions4 := 0, NumDecisions5 := 0, NumDecisions6 := 0 } ∧
    2 ≤ allFoldedCoveredRecord.getNumConditions ∧
    allFoldedCoveredRecord.getNumConditions ≤ 6 ∧
    MCDCCoverageInfo.create 2 0 1 1 0 0 0 0 0 0 = .error "Covered pairs over-counted" ∧
    FunctionCoverageSummary.get 1 allFoldedCoveredCM exampleFunction 0 0
      = some (.error "Covered pairs over-counted") :=
  ⟨rfl, by decide, by decide, rfl, rfl⟩

/-! ## What the consistency check of the merge misses -/

/-- C19: there are two MC/DC accumulators, each with `NumDecisions` the sum of
its five histogram counters, with equal nonzero `NumPairs` and equal nonzero
`NumDecisions` but different histograms, whose merge reports no inconsistency
and leaves histogram counters that add up to more than `NumDecisions`: two
decisions of three conditions against one of two and one of four. Both are
what `sumMCDCPairs` computes for such records. -/
theorem C19_merge_passes_divergent_histograms :
    ∃ A B : MCDCCoverageInfo,
      A.NumDecisions = A.NumDecisions2 + A.NumDecisions3 + A.NumDecisions4
        + A.NumDecisions5 + A.NumDecisions6 ∧
      B.NumDecisions = B.NumDecisions2 + B.NumDecisions3 + B.NumDecisions4
        + B.NumDecisions5 + B.NumDecisions6 ∧
      A.NumPairs = B.NumPairs ∧ A.NumPairs ≠ 0 ∧
      A.NumDecisions = B.NumDecisions ∧ A.NumDecisions ≠ 0 ∧
      (A.NumDecisions2, A.NumDecisions3, A.NumDecisions4, A.NumDecisions5, A.NumDecisions6)
        ≠ (B.NumDecisions2, B.NumDecisions3, B.NumDecisions4, B.NumDecisions5,
            B.NumDecisions6) ∧
      (A.merge B).2 = false ∧
      (A.merge B).1.NumDecisions <
        (A.merge B).1.NumDecisions2 + (A.merge B).1.NumDecisions3
          + (A.merge B).1.NumDecisions4 + (A.merge B).1.NumDecisions5
          + (A.merge B).1.NumDecisions6 ∧
      sumMCDCPairs [plainRecord 3, plainRecord 3] 0 0 0 0 0 =
        .ok ⟨A.NumPairs, A.CoveredPairs, A.NumDecisions, A.NumDecisions2, A.NumDecisions3,
          A.NumDecisions4, A.NumDecisions5, A.NumDecisions6⟩ ∧
      sumMCDCPairs [plainRecord 2, plainRecord 4] 0 0 0 0 0 =
        .ok ⟨B.NumPairs, B.CoveredPairs, B.NumDecisions, B.NumDecisions2, B.NumDecisions3,
          B.NumDecisions4, B.NumDecisions5, B.NumDecisions6⟩ :=
  ⟨twoTernaryDecisions, binaryAndQuaternaryDecisions, rfl, rfl, rfl, by decide, rfl,
    by decide, by decide, rfl, by decide, rfl, rfl⟩

/-! ## The flags of the group fold -/

theorem mergeSomethingWrong_iff (A B : MCDCCoverageInfo) :
    (A.merge B).2 = true ↔
      (A.NumPairs ≠ 0 ∧ B.NumPairs ≠ 0 ∧ A.NumPairs ≠ B.NumPairs) ∨
      (A.NumDecisions ≠ 0 ∧ B.NumDecisions ≠ 0 ∧ A.NumDecisions ≠ B.NumDecisions) := by
  simp only [MCDCCoverageInfo.merge, MCDCCoverageInfo.mergeSomethingWrong]
  by_cases h1 : A.NumPairs = 0 <;> by_cases h2 : B.NumPairs = 0 <;>
    by_cases h3 : A.NumPairs = B.NumPairs <;>
    by_cases h4 : A.NumDecisions = 0 <;> by_cases h5 : B.NumDecisions = 0 <;>
    by_cases h6 : A.NumDecisions = B.NumDecisions <;>
    simp [h1, h2, h3, h4, h5, h6]

theorem conflicting_of_nonzero_subset {l1 l2 : List Nat}
    (hsub : ∀ x ∈ l1, x ≠ 0 → x ∈ l2) (h : Conflicting l1) : Conflicting l2 := by
  obtain ⟨a, ha, b, hb, ha0, hb0, hab⟩ := h
  exact ⟨a, hsub a ha ha0, b, hsub b hb hb0, ha0, hb0, hab⟩

/-- Replacing two numbers by their maximum loses a conflict only when the two
numbers themselves are nonzero and different. -/
theorem conflicting_max_iff (a b : Nat) (vs : List Nat) :
    (a ≠ 0 ∧ b ≠ 0 ∧ a ≠ b) ∨ Conflicting (max a b :: vs) ↔ Conflicting (a :: b :: vs) := by
  constructor
  · rintro (hD | hC)
    · exact ⟨a, by simp, b, by simp, hD⟩
    · refine conflicting_of_nonzero_subset ?_ hC
      intro x hx _
      rcases List.mem_cons.mp hx with rfl | hx
      · rcases Nat.le_total a b with hle | hle
        · rw [Nat.max_eq_right hle]; simp
        · rw [Nat.max_eq_left hle]; simp
      · simp [hx]
  · intro hC
    by_cases hD : a ≠ 0 ∧ b ≠ 0 ∧ a ≠ b
    · exact Or.inl hD
    · right
      refine conflicting_of_nonzero_subset ?_ hC
      intro x hx hx0
      rcases List.mem_cons.mp hx with rfl | hx
      · have : max x b = x := by
          by_cases hb : b = 0
          · subst hb; exact Nat.max_eq_left (Nat.zero_le _)
          · have hxb : x = b := by
              by_contra hne
              exact hD ⟨hx0, hb, hne⟩
            subst hxb; exact Nat.max_self _
        rw [this]; simp
      · rcases List.mem_cons.mp hx with rfl | hx
        · have : max a x = x := by
            by_cases ha : a = 0
            · subst ha; exact Nat.max_eq_right (Nat.zero_le _)
            · have hax : a = x := by
                by_contra hne
                exact hD ⟨ha, hx0, hne⟩
              subst hax; exact Nat.max_self _
          rw [this]; simp
        · simp [hx]

theorem inconsistent_iff_conflicting (l : List MCDCCoverageInfo) :
    Inconsistent l ↔
      Conflicting (l.map (fun A => A.NumPairs)) ∨
      Conflicting (l.map (fun A => A.NumDecisions)) := by
  simp only [Inconsistent, Conflicting, List.mem_map, exists_exists_and_eq_and]

theorem mem_mergeFlags_iff (Rest : List MCDCCoverageInfo) (Acc : MCDCCoverageInfo) :
    true ∈ mergeFlags Acc Rest ↔
      Conflicting ((Acc :: Rest).map (fun A => A.NumPairs)) ∨
      Conflicting ((Acc :: Rest).map (fun A => A.NumDecisions)) := by
  induction Rest generalizing Acc with
  | nil =>
    simp only [mergeFlags, List.map_cons, List.map_nil]
    constructor
    · intro h; cases h
    · rintro (⟨a, ha, b, hb, _, _, hab⟩ | ⟨a, ha, b, hb, _, _, hab⟩) <;>
        · rw [List.mem_singleton] at ha hb
          exact absurd (ha.trans hb.symm) hab
  | cons RHS Rest ih =>
    simp only [mergeFlags, List.mem_cons, List.map_cons]
    rw [ih (Acc.merge RHS).1]
    have hflag := mergeSomethingWrong_iff Acc RHS
    have hP := conflicting_max_iff Acc.NumPairs RHS.NumPairs (Rest.map (fun A => A.NumPairs))
    have hD := conflicting_max_iff Acc.NumDecisions RHS.NumDecisions
      (Rest.map (fun A => A.NumDecisions))
    simp only [List.map_cons, MCDCCoverageInfo.merge, MCDCCoverageInfo.mergeFields] at hflag ⊢
    rw [← hP, ← hD]
    constructor
    · rintro (hf | hC | hC)
      · rcases hflag.mp hf.symm with h | h
        · exact Or.inl (Or.inl h)
        · exact Or.inr (Or.inl h)
      · exact Or.inl (Or.inr hC)
      · exact Or.inr (Or.inr hC)
    · rintro ((h | hC) | (h | hC))
      · exact Or.inl (hflag.mpr (Or.inl h)).symm
      · exact Or.inr (Or.inl hC)
      · exact Or.inl (hflag.mpr (Or.inr h)).symm
      · exact Or.inr (Or.inr hC)

theorem inconsistent_perm {l1 l2 : List MCDCCoverageInfo} (hp : l1.Perm l2) :
    Inconsistent l1 ↔ Inconsistent l2 := by
  simp only [Inconsistent, hp.mem_iff]

theorem foldl_mergeInstance_flag (Rest : List FunctionCoverageSummary)
    (acc : FunctionCoverageSummary × Bool) :
    (Rest.foldl FunctionCoverageSummary.mergeInstance acc).2 =
      ((mergeFlags acc.1.MCDCCoverage (Rest.map (fun S => S.MCDCCoverage))).getLast?).getD
        acc.2 := by
  induction Rest generalizing acc with
  | nil => rfl
  | cons S Rest ih =>
    rw [List.foldl_cons, ih]
    simp only [List.map_cons, mergeFlags, List.getLast?_cons, Option.getD_some]
    rfl

/-- C20: when the MC/DC accumulators `First :: Rest` are merged left to right
as the group summary does, some merge step sets the flag exactly when two
accumulators of the list have different nonzero `NumPairs` or different
nonzero `NumDecisions`; hence whether some step flags is the same for every
permutation of the list. The flag the group summary leaves is the one of the
last step alone (the flag on entry when there is no step), and it depends on
the order: pairs 4, 6, 6 end with the flag off, pairs 6, 6, 4 with it on. -/
theorem C20_some_merge_step_flags_iff_inconsistent (First : MCDCCoverageInfo)
    (Rest : List MCDCCoverageInfo) :
    (true ∈ mergeFlags First Rest ↔ Inconsistent (First :: Rest)) ∧
    (∀ (First2 : MCDCCoverageInfo) (Rest2 : List MCDCCoverageInfo),
      (First :: Rest).Perm (First2 :: Rest2) →
      (true ∈ mergeFlags First Rest ↔ true ∈ mergeFlags First2 Rest2)) ∧
    (∀ (Group : InstantiationGroup) (FirstS : FunctionCoverageSummary)
        (RestS : List FunctionCoverageSummary) (SomethingWrong : Bool),
      FirstS.MCDCCoverage = First → RestS.map (fun S => S.MCDCCoverage) = Rest →
      (FunctionCoverageSummary.getGroup Group (FirstS :: RestS) SomethingWrong).map
        (fun R => R.2) = some (((mergeFlags First Rest).getLast?).getD SomethingWrong)) ∧
    (mergeFlags (pairsOnly 4) [pairsOnly 6, pairsOnly 6] = [true, false] ∧
      (FunctionCoverageSummary.getGroup exampleGroup
        [pairsOnlySummary 4, pairsOnlySummary 6, pairsOnlySummary 6] false).map
        (fun R => R.2) = some false) ∧
    (mergeFlags (pairsOnly 6) [pairsOnly 6, pairsOnly 4] = [false, true] ∧
      (FunctionCoverageSummary.getGroup exampleGroup
        [pairsOnlySummary 6, pairsOnlySummary 6, pairsOnlySummary 4] false).map
        (fun R => R.2) = some true) := by
  have hmain : ∀ (F : MCDCCoverageInfo) (Rs : List MCDCCoverageInfo),
      true ∈ mergeFlags F Rs ↔ Inconsistent (F :: Rs) := fun F Rs =>
    (mem_mergeFlags_iff Rs F).trans (inconsistent_iff_conflicting (F :: Rs)).symm
  refine ⟨hmain First Rest, ?_, ?_, ⟨rfl, rfl⟩, ⟨rfl, rfl⟩⟩
  · intro First2 Rest2 hp
    rw [hmain First Rest, hmain First2 Rest2]
    exact inconsistent_perm hp
  · intro Group FirstS RestS SW hF hR
    subst hF hR
    simp only [FunctionCoverageSummary.getGroup, Option.map_some', Option.some.injEq]
    exact foldl_mergeInstance_flag RestS _

/-! ## Empty accumulators -/

/-- C21: an accumulator with covered = 0 and total = 0 (in particular the one
of the default constructor) reports `isFullyCovered` while `getPercentCovered`
returns 0, not 100, for each of the five accumulator types. A summary that
`FunctionCoverageSummary::get(CM, Function)` returns has such a region
accumulator when the function has no code region, such a branch accumulator
when every branch is folded and there is no expansion, and such MC/DC pair
counts when there is no decision. -/
theorem C21_empty_accumulator_fully_covered_at_zero_percent :
    (RegionCoverageInfo.empty = ⟨0, 0⟩ ∧
      RegionCoverageInfo.empty.isFullyCovered = true ∧
      RegionCoverageInfo.empty.getPercentCovered = .ok 0 ∧
      RegionCoverageInfo.empty.getPercentCovered ≠ .ok 100) ∧
    (LineCoverageInfo.empty = ⟨0, 0⟩ ∧
      LineCoverageInfo.empty.isFullyCovered = true ∧
      LineCoverageInfo.empty.getPercentCovered = .ok 0 ∧
      LineCoverageInfo.empty.getPercentCovered ≠ .ok 100) ∧
    (BranchCoverageInfo.empty = ⟨0, 0⟩ ∧
      BranchCoverageInfo.empty.isFullyCovered = true ∧
      BranchCoverageInfo.empty.getPercentCovered = .ok 0 ∧
      BranchCoverageInfo.empty.getPercentCovered ≠ .ok 100) ∧
    (∀ M : MCDCCoverageInfo,
      MCDCCoverageInfo.empty.CoveredPairs = 0 ∧ MCDCCoverageInfo.empty.NumPairs = 0 ∧
      MCDCCoverageInfo.isFullyCovered { M with CoveredPairs := 0, NumPairs := 0 } = true ∧
      MCDCCoverageInfo.getPercentCovered { M with CoveredPairs := 0, NumPairs := 0 } = .ok 0 ∧
      MCDCCoverageInfo.getPercentCovered { M with CoveredPairs := 0, NumPairs := 0 }
        ≠ .ok 100) ∧
    (FunctionCoverageInfo.empty = ⟨0, 0⟩ ∧
      FunctionCoverageInfo.empty.isFullyCovered = true ∧
      FunctionCoverageInfo.empty.getPercentCovered = .ok 0 ∧
      FunctionCoverageInfo.empty.getPercentCovered ≠ .ok 100) ∧
    (∀ (fuel : Nat) (CM : CoverageMapping) (Function : FunctionRecord)
        (NumPairsAll NumDecisionsWithAtLeastTwoNonConstCond : Nat)
        (S : FunctionCoverageSummary),
      FunctionCoverageSummary.get fuel CM Function NumPairsAll
        NumDecisionsWithAtLeastTwoNonConstCond = some (.ok S) →
      ((∀ CR ∈ Function.CountedRegions, CR.Kind ≠ RegionKind.CodeRegion) →
        S.RegionCoverage = ⟨0, 0⟩) ∧
      ((∀ BR ∈ (CM.getCoverageForFunction Function).getBranches, BR.Folded = true) →
        (CM.getCoverageForFunction Function).getExpansions = [] →
        S.BranchCoverage = ⟨0, 0⟩) ∧
      ((CM.getCoverageForFunction Function).getMCDCRecords = [] →
        S.MCDCCoverage.CoveredPairs = 0 ∧ S.MCDCCoverage.NumPairs = 0 ∧
        S.MCDCCoverage.NumDecisions = 0)) ∧
    (FunctionCoverageSummary.get 1 nothingToCoverCM nothingToCoverFunction 0 0).map
        (fun r => r.map (fun S =>
          (S.RegionCoverage, S.LineCoverage, S.BranchCoverage, S.MCDCCoverage)))
      = some (.ok (RegionCoverageInfo.empty, LineCoverageInfo.empty,
          BranchCoverageInfo.empty, MCDCCoverageInfo.empty)) := by
  have hne : (Except.ok 0 : Except String ℚ) ≠ .ok 100 := by
    intro h
    rw [Except.ok.injEq] at h
    norm_num at h
  have hR := getPercentCovered_region_eq ⟨0, 0⟩ (Nat.le_refl _)
  have hL := getPercentCovered_line_eq ⟨0, 0⟩ (Nat.le_refl _)
  have hB := getPercentCovered_branch_eq ⟨0, 0⟩ (Nat.le_refl _)
  have hF := getPercentCovered_function_eq ⟨0, 0⟩ (Nat.le_refl _)
  simp only [if_true] at hR hL hB hF
  refine ⟨⟨rfl, rfl, hR, ?_⟩, ⟨rfl, rfl, hL, ?_⟩, ⟨rfl, rfl, hB, ?_⟩, ?_,
    ⟨rfl, rfl, hF, ?_⟩, ?_, rfl⟩
  · rw [show RegionCoverageInfo.empty = ⟨0, 0⟩ from rfl, hR]; exact hne
  · rw [show LineCoverageInfo.empty = ⟨0, 0⟩ from rfl, hL]; exact hne
  · rw [show BranchCoverageInfo.empty = ⟨0, 0⟩ from rfl, hB]; exact hne
  · intro M
    have hM := getPercentCovered_mcdc_eq { M with CoveredPairs := 0, NumPairs := 0 }
      (Nat.le_refl _)
    simp only [if_true] at hM
    refine ⟨rfl, rfl, rfl, hM, ?_⟩
    rw [hM]; exact hne
  · rw [show FunctionCoverageInfo.empty = ⟨0, 0⟩ from rfl, hF]; exact hne
  · intro fuel CM Function a b S hS
    obtain ⟨Br, M, hBr, _, hM, _, hSeq⟩ :=
      FunctionCoverageSummary.get_ok_full fuel CM Function a b S hS
    subst hSeq
    refine ⟨?_, ?_, ?_⟩
    · intro hno
      have h0 : Function.CountedRegions.countP
          (fun CR => CR.Kind == RegionKind.CodeRegion) = 0 :=
        List.countP_eq_zero.mpr (fun CR hCR => by simpa using hno CR hCR)
      have h1 : Function.CountedRegions.countP
          (fun CR => CR.Kind == RegionKind.CodeRegion && CR.ExecutionCount != 0) = 0 :=
        List.countP_eq_zero.mpr (fun CR hCR => by simp [hno CR hCR])
      simp only [sumRegions_eq_counts, h0, h1]
    · intro hfold hexp
      rw [hexp] at hBr
      cases fuel with
      | zero => simp [sumBranchExpansions] at hBr
      | succ fuel =>
        simp only [sumBranchExpansions, List.foldlM_nil, pure, Option.some.injEq] at hBr
        rw [← hBr, sumBranches_eq_counts]
        have h0 : (CM.getCoverageForFunction Function).getBranches.countP
            (fun BR => !BR.Folded) = 0 :=
          List.countP_eq_zero.mpr (fun BR hBR => by simp [hfold BR hBR])
        have h1 : (CM.getCoverageForFunction Function).getBranches.countP
            (fun BR => !BR.Folded && decide (BR.ExecutionCount > 0)) = 0 :=
          List.countP_eq_zero.mpr (fun BR hBR => by simp [hfold BR hBR])
        have h2 : (CM.getCoverageForFunction Function).getBranches.countP
            (fun BR => !BR.Folded && decide (BR.FalseExecutionCount > 0)) = 0 :=
          List.countP_eq_zero.mpr (fun BR hBR => by simp [hfold BR hBR])
        simp only [h0, h1, h2]
    · intro hrec
      rw [hrec] at hM
      simp only [sumMCDCPairs, List.foldlM_nil, pure, Except.pure, Except.ok.injEq] at hM
      subst hM
      exact ⟨rfl, rfl, rfl⟩

end llvm
